import Mathlib

/-!
Verification of the WikiSubmission SDK core against its specification:
the query classifier (src/quran/v1/methods.ts), the resilient request
executor with its cache (src/core/api-client.ts), the client facade
(src/quran/v1 client) and config resolution.

JavaScript strings are modelled as lists of characters; the string
operations the source uses (split, trim, startsWith, endsWith, includes,
match on the digit regex, parseInt, Number, toLowerCase) are embedded as
executable functions on character lists, restricted where noted to the
fragment the source exercises.
-/

set_option maxHeartbeats 4000000
set_option maxRecDepth 200000

namespace WS

/-- JavaScript `String.prototype.trim` (ASCII whitespace fragment). -/
def jsTrim (cs : List Char) : List Char :=
  ((cs.dropWhile Char.isWhitespace).reverse.dropWhile Char.isWhitespace).reverse

/-- JavaScript `a.startsWith(b)`. -/
def jsStartsWith (cs pre : List Char) : Bool := pre.isPrefixOf cs

/-- JavaScript `a.endsWith(b)`. -/
def jsEndsWith (cs suf : List Char) : Bool := suf.isSuffixOf cs

/-- JavaScript `a.includes(b)`: substring containment. -/
def containsSeq (sub : List Char) : List Char → Bool
  | [] => sub.isEmpty
  | c :: rest => sub.isPrefixOf (c :: rest) || containsSeq sub rest

/-- Worker for `jsSplit`: scans for the next occurrence of `sep`,
accumulating the piece read so far in reverse. -/
def splitGo (sep : List Char) : List Char → List Char → List (List Char)
  | [], acc => [acc.reverse]
  | c :: rest, acc =>
      if h : sep.isPrefixOf (c :: rest) = true ∧ sep ≠ [] then
        acc.reverse :: splitGo sep ((c :: rest).drop sep.length) []
      else
        splitGo sep rest (c :: acc)
termination_by cs _ => cs.length
decreasing_by
  · have h1 : 0 < sep.length := List.length_pos.mpr h.2
    simp only [List.length_drop, List.length_cons]
    omega
  · simp

/-- JavaScript `a.split(b)` for a non-empty separator `b`. -/
def jsSplit (sep cs : List Char) : List (List Char) := splitGo sep cs []

/-- Numeric value of a decimal digit character. -/
def digitVal (c : Char) : Nat := c.toNat - 48

/-- Value of a most-significant-first list of decimal digit characters. -/
def digitsVal (ds : List Char) : Nat := ds.foldl (fun a c => 10 * a + digitVal c) 0

/-- The longest leading run of decimal digits as a value; `none` when there
is no leading digit. -/
def leadingDigitsVal (cs : List Char) : Option Nat :=
  let ds := cs.takeWhile Char.isDigit
  if ds.isEmpty then none else some (digitsVal ds)

/-- JavaScript `parseInt(s, 10)`: skip leading whitespace, an optional sign,
then the longest leading run of decimal digits; `none` models `NaN`. -/
def jsParseInt (cs : List Char) : Option Int :=
  match cs.dropWhile Char.isWhitespace with
  | '-' :: rest => (leadingDigitsVal rest).map (fun v => -(v : Int))
  | '+' :: rest => (leadingDigitsVal rest).map (fun v => (v : Int))
  | other => (leadingDigitsVal other).map (fun v => (v : Int))

/-- JavaScript `Number(s)` on the integer fragment: surrounding whitespace
is ignored, the empty string is 0, an optional sign followed by decimal
digits only is that integer. Non-integer numeric forms (fractions, hex,
exponents, Infinity) are modelled as `NaN` (`none`); the classifier only
ever compares its result against integer record fields, and every property
below feeds it integer numerals. -/
def jsNumberInt (cs : List Char) : Option Int :=
  match jsTrim cs with
  | [] => some 0
  | '-' :: rest =>
      if rest ≠ [] ∧ rest.all Char.isDigit then some (-(digitsVal rest : Int)) else none
  | '+' :: rest =>
      if rest ≠ [] ∧ rest.all Char.isDigit then some ((digitsVal rest : Int)) else none
  | other =>
      if other.all Char.isDigit then some ((digitsVal other : Int)) else none

/-- JavaScript `Number(x)` where `x` may be `undefined` (an out-of-range
index): `Number(undefined)` is `NaN`. -/
def optNumber (o : Option (List Char)) : Option Int :=
  match o with
  | some cs => jsNumberInt cs
  | none => none

/-- Decimal digits of `n`, most significant first: the functional core of
`Nat.toDigitsCore` at base 10, used to reason about `Nat.repr`. -/
def decDigits (n : Nat) : List Char :=
  if h : n / 10 = 0 then [Nat.digitChar (n % 10)]
  else decDigits (n / 10) ++ [Nat.digitChar (n % 10)]
termination_by n
decreasing_by
  exact Nat.div_lt_self (Nat.pos_of_ne_zero (fun h0 => h (by simp [h0]))) (by omega)

/-- A character list as a `String`. -/
def strOf (cs : List Char) : String := ⟨cs⟩

/- ### The verse index table -/

/-- Equality of `Except` results is decidable componentwise. -/
instance {ε α : Type} [DecidableEq ε] [DecidableEq α] : DecidableEq (Except ε α) := fun a b =>
  match a, b with
  | .error x, .error y =>
      if h : x = y then isTrue (by rw [h]) else isFalse (fun e => h (Except.error.inj e))
  | .ok x, .ok y =>
      if h : x = y then isTrue (by rw [h]) else isFalse (fun e => h (Except.ok.inj e))
  | .error _, .ok _ => isFalse (fun e => Except.noConfusion e)
  | .ok _, .error _ => isFalse (fun e => Except.noConfusion e)

/-- One record of the verse index table (QuranV1Schemas.VerseIndex). -/
structure VerseIndex where
  chapter : Nat
  verse : Nat
  verse_index : Nat
deriving DecidableEq, Repr

/-- Modelled from the spec: the file src/data/verse-indices.ts — the static
precomputed index dataset the classifier consumes — is not among the given
sources. Spec section 3 describes it: an ordered sequence of records with
chapter in [1,114] and verse at least 1, exactly one record per
(chapter, verse) pair, ordinals contiguous and monotonic in
(chapter, verse) reading order. These are the corpus's standard
per-chapter verse counts. -/
def chapterVerseCounts : List Nat :=
  [7, 286, 200, 176, 120, 165, 206, 75, 129, 109,
   123, 111, 43, 52, 99, 128, 111, 110, 98, 135,
   112, 78, 118, 64, 77, 227, 93, 88, 69, 60,
   34, 30, 73, 54, 45, 83, 182, 88, 75, 85,
   54, 53, 89, 59, 37, 35, 38, 29, 18, 45,
   60, 49, 62, 55, 78, 96, 29, 22, 24, 13,
   14, 11, 11, 18, 12, 12, 30, 52, 52, 44,
   28, 28, 20, 56, 40, 31, 50, 40, 46, 42,
   29, 19, 36, 25, 22, 17, 19, 26, 30, 20,
   15, 21, 11, 8, 8, 19, 5, 8, 8, 11,
   11, 8, 3, 9, 5, 4, 7, 3, 6, 3,
   5, 4, 5, 6]

/-- The records of one chapter, verses 1..count, ordinals from `start`. -/
def chapterBlock (c start count : Nat) : List VerseIndex :=
  (List.range count).map (fun k => ⟨c, k + 1, start + k⟩)

/-- Flattens per-chapter verse counts into the ordered index table,
starting at chapter `c` with first ordinal `start`. -/
def buildIndices : Nat → Nat → List Nat → List VerseIndex
  | _, _, [] => []
  | c, start, cnt :: rest => chapterBlock c start cnt ++ buildIndices (c + 1) (start + cnt) rest

/-- Modelled from the spec: the verse index table itself (see
`chapterVerseCounts` for what stands in for src/data/verse-indices.ts). -/
def VerseIndices : List VerseIndex := buildIndices 1 1 chapterVerseCounts

/- ### The query classifier (QuranV1Methods) -/

/-- The string `"{chapter}:{verse}"` of an index record — the template
literal `isVerseType` compares queries against. -/
def keyOf (i : VerseIndex) : List Char :=
  (Nat.repr i.chapter).data ++ ':' :: (Nat.repr i.verse).data

/-- QuranV1Methods.isChapterType (methods.ts lines 543-567): a bare integer
or `chapter:<N>`, parseInt, range check [1,114], then every index record of
that chapter; an empty filter result falls through. An empty candidate
string is falsy in the source's `if (possibleCh)` guard. -/
def isChapterType (idx : List VerseIndex) (query : List Char) : Option (List VerseIndex) :=
  if query = [] then none
  else
    let fromPrefix : Option (List Char) :=
      if jsStartsWith query ("chapter:".data) then (jsSplit ("chapter:".data) query).get? 1
      else none
    let possibleCh : Option (List Char) :=
      if query ≠ [] ∧ query.all Char.isDigit then some query else fromPrefix
    match possibleCh with
    | some cs =>
        if cs ≠ [] then
          match jsParseInt cs with
          | some n =>
              if 1 ≤ n ∧ n ≤ 114 then
                let result := idx.filter (fun i => ((i.chapter : Int) == n))
                if result.length > 0 then some result else none
              else none
          | none => none
        else none
    | none => none

/-- QuranV1Methods.isVerseType (methods.ts lines 572-582): the first index
record whose `"{chapter}:{verse}"` string equals the query verbatim. -/
def isVerseType (idx : List VerseIndex) (query : List Char) : Option VerseIndex :=
  if query = [] then none
  else idx.find? (fun i => keyOf i == query)

/-- QuranV1Methods.isVerseRangeType (methods.ts lines 587-612): requires a
hyphen not at the end, reads chapter, start and end with `Number`, and
keeps every record with that chapter and verse in [start, end]; any `NaN`
makes every comparison false. An empty filter result falls through. -/
def isVerseRangeType (idx : List VerseIndex) (query : List Char) : Option (List VerseIndex) :=
  if query = [] then none
  else if ¬ query.contains '-' ∨ jsEndsWith query [ '-' ] then none
  else
    let m := idx.filter (fun i =>
      let queryCh := optNumber ((jsSplit [ ':' ] query).get? 0)
      let queryVer := optNumber (((jsSplit [ '-' ] query).get? 0).bind
        (fun s => (jsSplit [ ':' ] s).get? 1))
      let queryVerEnd := optNumber ((jsSplit [ '-' ] query).get? 1)
      match queryCh, queryVer, queryVerEnd with
      | some a, some b, some c =>
          ((i.chapter : Int) == a) && (b ≤ (i.verse : Int)) && ((i.verse : Int) ≤ c)
      | _, _, _ => false)
    if m.length > 0 then some m else none

/-- One loop step of QuranV1Methods.isMultipleVersesType: trim the
component, take a single-verse match (one record) or else a verse-range
match (all its records) or else nothing. -/
def resolveComponent (idx : List VerseIndex) (component : List Char) : List VerseIndex :=
  let basis := jsTrim component
  match isVerseType idx basis with
  | some v => [v]
  | none =>
      match isVerseRangeType idx basis with
      | some vs => vs
      | none => []

/-- QuranV1Methods.isMultipleVersesType (methods.ts lines 617-645): split on
commas and collect what each component resolves to, in input order; an
empty collection falls through. -/
def isMultipleVersesType (idx : List VerseIndex) (query : List Char) : Option (List VerseIndex) :=
  if query = [] then none
  else if ¬ query.contains ',' then none
  else
    let results := (jsSplit [ ',' ] query).foldl (fun acc comp => acc ++ resolveComponent idx comp) []
    if results.length > 0 then some results else none

/-- QuranV1Methods.isRandomChapterType (methods.ts lines 650-658). -/
def isRandomChapterType (query : List Char) : Bool :=
  if query = [] then false
  else containsSeq ("random".data) (query.map Char.toLower)
    && containsSeq ("chapter".data) (query.map Char.toLower)

/-- QuranV1Methods.isRandomVerseType (methods.ts lines 663-671). -/
def isRandomVerseType (query : List Char) : Bool :=
  if query = [] then false
  else containsSeq ("random".data) (query.map Char.toLower)
    && containsSeq ("verse".data) (query.map Char.toLower)

/-- An ASCII letter (the `[a-zA-Z]` class). -/
def isAsciiLetter (c : Char) : Bool :=
  decide ('a' ≤ c ∧ c ≤ 'z') || decide ('A' ≤ c ∧ c ≤ 'Z')

/-- QuranV1Methods.isSearchType (methods.ts lines 676-699). -/
def isSearchType (query : List Char) : Bool :=
  if query = [] then false
  else
    let trimmed := jsTrim query
    if trimmed = [] then false
    else if trimmed.all (fun c => c.isDigit || c == ':' || c == ',' || c == '-' || c.isWhitespace)
      then false
    else if trimmed.length ≤ 2 && ! trimmed.any isAsciiLetter then false
    else trimmed.any isAsciiLetter

/-- generateSearchMetadata inside parseQuery (methods.ts lines 118-144). -/
def generateSearchMetadata (query : List Char) : String :=
  if jsStartsWith query ("root:".data) && query.length > 5 then
    "Root: " ++ strOf (((jsSplit ("root:".data) query).get? 1).getD [])
  else if jsStartsWith query ("chapter:".data) && query.length > 8 then
    "Chapter: " ++ strOf (((jsSplit ("chapter:".data) query).get? 1).getD [])
  else if jsStartsWith query ("verse:".data) && query.length > 6 then
    "Verse: " ++ strOf (((jsSplit ("verse:".data) query).get? 1).getD [])
  else if query = ("random-verse".data) then "Random Verse"
  else if query = ("random-chapter".data) then "Random Chapter"
  else if jsStartsWith query ("data:".data) && query.length > 5 then
    "Data: " ++ strOf (((jsSplit ("data:".data) query).get? 1).getD [])
  else strOf query

/- ### Query options (QuranV1Schemas.QueryOptions) -/

/-- A JavaScript value as the option bag holds one (the fragment the schema
distinguishes: strings, booleans, numbers). -/
inductive JVal where
  | jstr (s : String)
  | jbool (b : Bool)
  | jnum (n : Int)
deriving DecidableEq, Repr

/-- Association-list lookup, the first binding of a key. -/
def jlookup {V : Type} (key : String) : List (String × V) → Option V
  | [] => none
  | (k, v) :: rest => if k = key then some v else jlookup key rest

/-- Resolved query options: QuranV1Schemas.QueryOptions after zod parsing,
with `extra` holding the passthrough keys. -/
structure QueryOptions where
  sort_results : String
  normalize_god_casing : Bool
  include_word_by_word : Bool
  include_language : String
  search_strategy : String
  search_language : String
  search_case_sensitive : Bool
  search_ignore_commentary : Bool
  search_apply_highlight : Bool
  extra : List (String × JVal)
deriving DecidableEq, Repr

/-- The keys the QueryOptions schema declares. -/
def knownOptionKeys : List String :=
  ["sort_results", "normalize_god_casing", "include_word_by_word", "include_language",
   "search_strategy", "search_language", "search_case_sensitive", "search_ignore_commentary",
   "search_apply_highlight"]

/-- A zod enum field with a default: absent means the default, a listed
string passes, anything else raises. -/
def parseEnumField (opts : List (String × JVal)) (key : String) (allowed : List String)
    (dflt : String) : Except String String :=
  match jlookup key opts with
  | none => .ok dflt
  | some (.jstr s) => if s ∈ allowed then .ok s else .error "ZodError"
  | some _ => .error "ZodError"

/-- A zod boolean field with a default. -/
def parseBoolField (opts : List (String × JVal)) (key : String) (dflt : Bool) :
    Except String Bool :=
  match jlookup key opts with
  | none => .ok dflt
  | some (.jbool b) => .ok b
  | some _ => .error "ZodError"

/-- A zod string field with a default. -/
def parseStringField (opts : List (String × JVal)) (key : String) (dflt : String) :
    Except String String :=
  match jlookup key opts with
  | none => .ok dflt
  | some (.jstr s) => .ok s
  | some _ => .error "ZodError"

/-- QuranV1Schemas.SupportedLanguages. -/
def supportedLanguages : List String :=
  ["english", "turkish", "french", "german", "bahasa", "persian", "tamil", "swedish", "russian"]

/-- QuranV1Schemas.QueryOptions.parse (schemas.ts lines 32-47): validate the
declared fields, apply their defaults, pass unrecognized keys through; a
type or enum mismatch raises a ZodError (modelled as `Except.error`). -/
def parseQueryOptions (opts : List (String × JVal)) : Except String QueryOptions := do
  let sr ← parseEnumField opts "sort_results" ["verse_index", "revelation_order"] "verse_index"
  let ngc ← parseBoolField opts "normalize_god_casing" false
  let iwbw ← parseBoolField opts "include_word_by_word" false
  let il ← parseStringField opts "include_language" "none"
  let ss ← parseEnumField opts "search_strategy" ["exact", "fuzzy"] "fuzzy"
  let sl ← parseEnumField opts "search_language" supportedLanguages "english"
  let scs ← parseBoolField opts "search_case_sensitive" false
  let sic ← parseBoolField opts "search_ignore_commentary" false
  let sah ← parseBoolField opts "search_apply_highlight" false
  return ⟨sr, ngc, iwbw, il, ss, sl, scs, sic, sah,
    opts.filter (fun kv => decide (kv.1 ∉ knownOptionKeys))⟩

/-- The options an empty bag parses to (all schema defaults). -/
def defaultQueryOptions : QueryOptions :=
  ⟨"verse_index", false, false, "none", "fuzzy", "english", false, false, false, []⟩

/- ### ParsedQuery -/

/-- QuranV1Schemas.QueryTypes. -/
inductive QueryType where
  | verse
  | verse_range
  | multiple_verses
  | chapter
  | search
  | random_chapter
  | random_verse
deriving DecidableEq, Repr

/-- The valid arm of QuranV1Schemas.ParsedQuery. -/
structure ValidQuery where
  type : QueryType
  query : String
  indices : List VerseIndex
  options : QueryOptions
  title : String
deriving DecidableEq, Repr

/-- QuranV1Schemas.ParsedQuery: a discriminated union on `valid`. -/
inductive ParsedQuery where
  | valid (q : ValidQuery)
  | invalid (error : String)
deriving DecidableEq, Repr

/-- The classification cascade inside QuranV1Methods.parseQuery's try block
(methods.ts lines 15-150), in source order: chapter, verse, verse range,
multiple verses, random chapter, random verse, search, else invalid.
Nothing in the block can raise, so the surrounding catch (which would
return "Internal server error") is unreachable and the cascade is a plain
function. -/
def classifyQuery (idx : List VerseIndex) (query : String) (parsedOptions : QueryOptions) :
    ParsedQuery :=
  let q := query.data
  match isChapterType idx q with
  | some chapterResult =>
      .valid ⟨.chapter, query, chapterResult, parsedOptions,
        "Chapter " ++ Nat.repr (((chapterResult.get? 0).map VerseIndex.chapter).getD 0)⟩
  | none =>
  match isVerseType idx q with
  | some verseResult =>
      .valid ⟨.verse, query, [verseResult], parsedOptions,
        "Verse " ++ Nat.repr verseResult.chapter ++ ":" ++ Nat.repr verseResult.verse⟩
  | none =>
  match isVerseRangeType idx q with
  | some rangeResult =>
      .valid ⟨.verse_range, query, rangeResult, parsedOptions,
        "Verses " ++ Nat.repr (((rangeResult.get? 0).map VerseIndex.chapter).getD 0) ++ ":"
          ++ Nat.repr (((rangeResult.get? 0).map VerseIndex.verse).getD 0) ++ "-"
          ++ Nat.repr ((rangeResult.getLast?.map VerseIndex.verse).getD 0)⟩
  | none =>
  match isMultipleVersesType idx q with
  | some multipleResult =>
      .valid ⟨.multiple_verses, query, multipleResult, parsedOptions,
        "Verses " ++ strOf (q.take 256)⟩
  | none =>
  if isRandomChapterType q then
    .valid ⟨.random_chapter, query, [], parsedOptions, "Random Chapter"⟩
  else if isRandomVerseType q then
    .valid ⟨.random_verse, query, [], parsedOptions, "Random Verse"⟩
  else if isSearchType q then
    .valid ⟨.search, query, [], parsedOptions, generateSearchMetadata q⟩
  else .invalid "Invalid query"

/-- QuranV1Methods.parseQuery (methods.ts lines 9-158). Option parsing runs
BEFORE the try block, so a validation failure there propagates to the
caller as a thrown ZodError — modelled as `Except.error`; the try/catch
only wraps the cascade, where nothing can raise. -/
def parseQuery (idx : List VerseIndex) (query : String) (options : List (String × JVal)) :
    Except String ParsedQuery :=
  match parseQueryOptions options with
  | .error e => .error e
  | .ok parsedOptions => .ok (classifyQuery idx query parsedOptions)

/- ### The resilient request executor (WikiSubmissionAPIClient) -/

/-- A failure as the executor inspects one: whether axios raised it, the
response status if any, the structured `response.data.error` if any, and
the error's own message. -/
structure JsError where
  isAxiosError : Bool
  status : Option Nat
  responseDataError : Option String
  message : String
deriving DecidableEq, Repr

/-- One physical attempt's outcome. -/
inductive AttemptOutcome (T : Type) where
  | success (data : T)
  | failure (e : JsError)

/-- WikiSubmissionAPIClient.shouldRetry (api-client.ts lines 239-245):
axios errors retry when the status is falsy (absent, or the number 0) or
5xx or 408 or 429; anything else never retries. -/
def shouldRetry (e : JsError) : Bool :=
  if e.isAxiosError then
    match e.status with
    | none => true
    | some s => s == 0 || decide (500 ≤ s) || s == 408 || s == 429
  else false

/-- The error-message chain after exhaustion (api-client.ts lines 110-117):
`response.data.error`, else the error's message, else "Network error"; an
empty string is falsy and falls through. -/
def finalErrorMessage (e : JsError) : String :=
  if e.isAxiosError then
    match e.responseDataError with
    | some s =>
        if s ≠ "" then s else (if e.message ≠ "" then e.message else "Network error")
    | none => if e.message ≠ "" then e.message else "Network error"
  else if e.message ≠ "" then e.message else "Network error"

/-- What one run of the retry loop produced before error mapping. -/
structure ExecOutcome (T : Type) where
  result : Except JsError T
  attemptsMade : Nat
  waits : List Nat
deriving Repr

/-- The retry loop of executeRequest (api-client.ts lines 60-108), started
at attempt number `attempt` with `remaining` further attempts allowed.
`att` gives each physical attempt's outcome; `waits` records each backoff
delay taken, in order. -/
def execFrom {T : Type} (att : Nat → AttemptOutcome T) (retryDelayMs : Nat) :
    (attempt remaining : Nat) → ExecOutcome T
  | attempt, 0 =>
    (match att attempt with
      | .success d => ⟨.ok d, attempt + 1, []⟩
      | .failure e => ⟨.error e, attempt + 1, []⟩)
  | attempt, r + 1 =>
    (match att attempt with
      | .success d => ⟨.ok d, attempt + 1, []⟩
      | .failure e =>
        if shouldRetry e then
          let nxt := execFrom att retryDelayMs (attempt + 1) r
          ⟨nxt.result, nxt.attemptsMade, retryDelayMs * 2 ^ attempt :: nxt.waits⟩
        else ⟨.error e, attempt + 1, []⟩)

/-- One logical call's result: the value or the single APIError message. -/
structure ExecResult (T : Type) where
  result : Except String T
  attemptsMade : Nat
  waits : List Nat
deriving Repr

/-- WikiSubmissionAPIClient.executeRequest (api-client.ts lines 52-118):
at most retryCount+1 attempts with exponential backoff, the last observed
failure mapped through `finalErrorMessage` into the one APIError. -/
def executeRequest {T : Type} (retryCount retryDelayMs : Nat)
    (att : Nat → AttemptOutcome T) : ExecResult T :=
  let o := execFrom att retryDelayMs 0 retryCount
  ⟨o.result.mapError finalErrorMessage, o.attemptsMade, o.waits⟩

/- ### The cache store -/

/-- CacheEntry (api-client-types.ts lines 26-30). -/
structure CacheEntry (V : Type) where
  data : V
  timestamp : Nat
  maxAge : Nat
deriving DecidableEq, Repr

/-- Map.set: overwrite the key's binding or append a new one. -/
def mapSet {V : Type} (key : String) (v : V) : List (String × V) → List (String × V)
  | [] => [(key, v)]
  | (k, w) :: rest => if k = key then (k, v) :: rest else (k, w) :: mapSet key v rest

/-- Map.delete: remove the key's binding. -/
def mapDelete {V : Type} (key : String) : List (String × V) → List (String × V)
  | [] => []
  | (k, w) :: rest => if k = key then rest else (k, w) :: mapDelete key rest

/-- WikiSubmissionAPIClient.getFromCache (api-client.ts lines 211-220): the
value while `now - createdAt < maxAge`, else a miss that deletes an expired
entry as a side effect of the read; returns the value found and the cache
as the read leaves it. -/
def getFromCache {V : Type} (cache : List (String × CacheEntry V)) (now : Nat) (key : String) :
    Option V × List (String × CacheEntry V) :=
  match jlookup key cache with
  | some entry =>
      if (now : Int) - entry.timestamp < entry.maxAge then (some entry.data, cache)
      else (none, mapDelete key cache)
  | none => (none, cache)

/-- WikiSubmissionAPIClient.setCache (api-client.ts lines 222-228). -/
def setCache {V : Type} (cache : List (String × CacheEntry V)) (now cacheMaxAgeMs : Nat)
    (key : String) (data : V) : List (String × CacheEntry V) :=
  mapSet key ⟨data, now, cacheMaxAgeMs⟩ cache

/-- JSON.stringify on a modelled value (no string escaping: the option keys
and values fed into cache keys contain no quotes or backslashes). -/
def jsonOfJVal : JVal → String
  | .jstr s => "\"" ++ s ++ "\""
  | .jbool b => if b then "true" else "false"
  | .jnum n => if n < 0 then "-" ++ Nat.repr n.natAbs else Nat.repr n.natAbs

/-- JSON.stringify's comma-joined object fields, in insertion order. -/
def jsonFields : List (String × JVal) → String
  | [] => ""
  | [(k, v)] => "\"" ++ k ++ "\":" ++ jsonOfJVal v
  | (k, v) :: rest => "\"" ++ k ++ "\":" ++ jsonOfJVal v ++ "," ++ jsonFields rest

/-- JSON.stringify of an option object: fields in insertion order. -/
def jsonStringify (o : List (String × JVal)) : String := "\x7b" ++ jsonFields o ++ "\x7d"

/-- WikiSubmissionAPIClient.generateCacheKey (api-client.ts lines 207-209). -/
def generateCacheKey (key : String) (options : List (String × JVal)) : String :=
  key ++ "_" ++ jsonStringify options

/- ### Config resolution (WikiSubmissionAPIClient.constructor) -/

/-- APIConfig as callers pass it (api-client-types.ts lines 1-10): every
field optional. -/
structure APIConfigInput where
  baseURL : Option String := none
  timeoutMs : Option Nat := none
  retryCount : Option Nat := none
  retryDelayMs : Option Nat := none
  enableCaching : Option Bool := none
  cacheMaxAgeMs : Option Nat := none
  enableRequestLogging : Option Bool := none
  headers : Option (List (String × String)) := none
deriving DecidableEq, Repr

/-- The fully resolved config. -/
structure APIConfig where
  baseURL : String
  timeoutMs : Nat
  retryCount : Nat
  retryDelayMs : Nat
  enableCaching : Bool
  cacheMaxAgeMs : Nat
  enableRequestLogging : Bool
  headers : List (String × String)
deriving DecidableEq, Repr

/-- JavaScript `v || d` on an optional number: `undefined` and 0 are falsy. -/
def jsOrNat (v : Option Nat) (d : Nat) : Nat :=
  match v with
  | none => d
  | some n => if n = 0 then d else n

/-- The constructor's config defaulting (api-client.ts lines 16-27): every
field resolved with `||`, so falsy supplied values coalesce to defaults. -/
def resolveConfig (c : APIConfigInput) : APIConfig where
  baseURL := c.baseURL.getD ""
  timeoutMs := jsOrNat c.timeoutMs 10000
  retryCount := jsOrNat c.retryCount 3
  retryDelayMs := jsOrNat c.retryDelayMs 1000
  enableCaching := (c.enableCaching.getD false)
  cacheMaxAgeMs := jsOrNat c.cacheMaxAgeMs 300000
  enableRequestLogging := (c.enableRequestLogging.getD false)
  headers := c.headers.getD []

/- ### The client facade (QuranV1APIClient.query) -/

/-- A response body as the HTTP contract allows one (spec section 6): a
bare array, or an envelope whose `error` field may be set and whose
`response.data` holds the array. -/
inductive NetBody (D : Type) where
  | arrayBody (xs : List D)
  | envelopeBody (error : Option String) (data : List D)
deriving DecidableEq, Repr

/-- An APIResponse envelope (api-client-types.ts lines 12-16). -/
structure APIResponseRec (D : Type) where
  id : String
  request : ParsedQuery
  response : List D
deriving DecidableEq, Repr

/-- What the facade's query returns: a success envelope, one APIError, or —
when option parsing raised before the try block — a propagated exception. -/
inductive QueryResult (D : Type) where
  | success (r : APIResponseRec D)
  | apiError (message : String)
  | thrown (e : String)
deriving DecidableEq, Repr

/-- Everything one facade call left behind. -/
structure FacadeOut (D : Type) where
  result : QueryResult D
  networkCalls : Nat
  cacheAfter : List (String × CacheEntry (APIResponseRec D))

/-- The `error` field of a body (undefined on a bare array). -/
def bodyError {D : Type} : NetBody D → Option String
  | .arrayBody _ => none
  | .envelopeBody e _ => e

/-- `responseData.response?.data || responseData || []`: the enveloped
array when present, else the bare array (arrays are truthy even when
empty). -/
def bodyData {D : Type} : NetBody D → List D
  | .arrayBody xs => xs
  | .envelopeBody _ xs => xs

/-- QuranV1APIClient.query (client source lines 724-790): classify; invalid
means an immediate APIError and no executor call; else cache check (when
enabled and not skipped), then one executor delegation whose outcome
`netResult` stands for `await executeRequest(...)`; a body-level error or
an empty data set becomes an APIError; a success is wrapped, cached when
enabled, and returned. `networkCalls` counts executor delegations. When the
executor itself returned an APIError, the source reads `responseData.error`
— undefined on an Error instance — so the re-wrapped message is always
"Unknown error". -/
def facadeQuery {D : Type} (idx : List VerseIndex) (cfg : APIConfig)
    (cache : List (String × CacheEntry (APIResponseRec D))) (now : Nat) (requestId : String)
    (query : String) (queryOptions : List (String × JVal)) (skipCache : Bool)
    (netResult : Except String (NetBody D)) : FacadeOut D :=
  match parseQuery idx query queryOptions with
  | .error z => ⟨.thrown z, 0, cache⟩
  | .ok (.invalid e) => ⟨.apiError e, 0, cache⟩
  | .ok (.valid pq) =>
    let cacheStep :=
      if cfg.enableCaching && ! skipCache then
        getFromCache cache now (generateCacheKey query queryOptions)
      else (none, cache)
    match cacheStep with
    | (some cached, cache1) => ⟨.success cached, 0, cache1⟩
    | (none, cache1) =>
      match netResult with
      | .error _ => ⟨.apiError "Unknown error", 1, cache1⟩
      | .ok body =>
        let hasErrField : Bool := match bodyError body with
          | some e => e ≠ ""
          | none => false
        if hasErrField then ⟨.apiError ((bodyError body).getD "Unknown error"), 1, cache1⟩
        else
          let data := bodyData body
          if data.length = 0 then
            ⟨.apiError ("No verses found with \"" ++ query ++ "\""), 1, cache1⟩
          else
            let result : APIResponseRec D := ⟨requestId, .valid pq, data⟩
            let cache2 :=
              if cfg.enableCaching && ! skipCache then
                setCache cache1 now cfg.cacheMaxAgeMs (generateCacheKey query queryOptions) result
              else cache1
            ⟨.success result, 1, cache2⟩

/-- Join pieces with a separator (the inverse image of a JavaScript split). -/
def joinWith (sep : List Char) : List (List Char) → List Char
  | [] => []
  | [p] => p
  | p :: rest => p ++ sep ++ joinWith sep rest

/-- Sum of the first `j` per-chapter counts. -/
def sumTo (counts : List Nat) (j : Nat) : Nat := (counts.take j).sum

/- ### Decimal numeral theory: `Nat.repr` through `decDigits` -/

theorem digitChar_isDigit {m : Nat} (h : m < 10) : (Nat.digitChar m).isDigit = true := by
  interval_cases m <;> decide

theorem digitVal_digitChar {m : Nat} (h : m < 10) : digitVal (Nat.digitChar m) = m := by
  interval_cases m <;> decide

theorem decDigits_all_digit (n : Nat) : ∀ c ∈ decDigits n, c.isDigit = true := by
  induction n using Nat.strong_induction_on with
  | _ n ih =>
    intro c hc
    rw [decDigits] at hc
    by_cases h : n / 10 = 0
    · rw [dif_pos h] at hc
      simp only [List.mem_singleton] at hc
      subst hc
      exact digitChar_isDigit (Nat.mod_lt _ (by omega))
    · rw [dif_neg h] at hc
      rcases List.mem_append.mp hc with h1 | h1
      · exact ih (n / 10) (Nat.div_lt_self (by omega) (by omega)) c h1
      · simp only [List.mem_singleton] at h1
        subst h1
        exact digitChar_isDigit (Nat.mod_lt _ (by omega))

theorem decDigits_ne_nil (n : Nat) : decDigits n ≠ [] := by
  rw [decDigits]
  by_cases h : n / 10 = 0
  · rw [dif_pos h]; simp
  · rw [dif_neg h]; simp

theorem digitsVal_append1 (ds : List Char) (c : Char) :
    digitsVal (ds ++ [c]) = 10 * digitsVal ds + digitVal c := by
  simp [digitsVal, List.foldl_append]

theorem digitsVal_decDigits (n : Nat) : digitsVal (decDigits n) = n := by
  induction n using Nat.strong_induction_on with
  | _ n ih =>
    rw [decDigits]
    by_cases h : n / 10 = 0
    · rw [dif_pos h]
      have hv := digitVal_digitChar (show n % 10 < 10 by omega)
      simp only [digitsVal, List.foldl_cons, List.foldl_nil, Nat.mul_zero, Nat.zero_add]
      omega
    · rw [dif_neg h]
      rw [digitsVal_append1]
      rw [ih (n / 10) (Nat.div_lt_self (by omega) (by omega))]
      rw [digitVal_digitChar (show n % 10 < 10 by omega)]
      omega

theorem toDigitsCore_eq_decDigits :
    ∀ (fuel n : Nat) (ds : List Char), n < fuel →
      Nat.toDigitsCore 10 fuel n ds = decDigits n ++ ds := by
  intro fuel
  induction fuel with
  | zero => intro n ds h; omega
  | succ f ih =>
    intro n ds h
    simp only [Nat.toDigitsCore]
    by_cases h0 : n / 10 = 0
    · rw [if_pos h0, decDigits, dif_pos h0]
      simp
    · rw [if_neg h0, ih (n / 10) _ (by omega)]
      conv_rhs => rw [decDigits, dif_neg h0]
      simp

theorem repr_data (n : Nat) : (Nat.repr n).data = decDigits n := by
  show (Nat.toDigits 10 n).asString.data = decDigits n
  rw [Nat.toDigits, toDigitsCore_eq_decDigits (n + 1) n [] (Nat.lt_succ_self n)]
  simp [List.asString]

theorem repr_ne_nil (n : Nat) : (Nat.repr n).data ≠ [] := by
  rw [repr_data]; exact decDigits_ne_nil n

theorem repr_all_digit (n : Nat) : ∀ c ∈ (Nat.repr n).data, c.isDigit = true := by
  rw [repr_data]; exact decDigits_all_digit n

theorem digitsVal_repr (n : Nat) : digitsVal (Nat.repr n).data = n := by
  rw [repr_data]; exact digitsVal_decDigits n

theorem repr_data_inj {m n : Nat} (h : (Nat.repr m).data = (Nat.repr n).data) : m = n := by
  have := congrArg digitsVal h
  rwa [digitsVal_repr, digitsVal_repr] at this

/- ### Character class facts -/

theorem digit_ne_of_not_digit {c d : Char} (hc : c.isDigit = true) (hd : d.isDigit = false) :
    c ≠ d := by
  intro e
  subst e
  rw [hd] at hc
  simp at hc

theorem digit_not_ws {c : Char} (hc : c.isDigit = true) : c.isWhitespace = false := by
  by_contra h
  have h2 : c.isWhitespace = true := by revert h; cases c.isWhitespace <;> simp
  simp only [Char.isWhitespace, Bool.or_eq_true, decide_eq_true_eq] at h2
  rcases h2 with ((h2 | h2) | h2) | h2 <;> (subst h2; simp at hc)

theorem takeWhile_all {p : Char → Bool} :
    ∀ (cs : List Char), (∀ c ∈ cs, p c = true) → cs.takeWhile p = cs := by
  intro cs
  induction cs with
  | nil => intro _; rfl
  | cons c rest ih =>
    intro h
    rw [List.takeWhile_cons, h c (List.mem_cons_self c rest)]
    rw [ih (fun x hx => h x (List.mem_cons_of_mem c hx))]
    simp

theorem dropWhile_all_not {p : Char → Bool} :
    ∀ (cs : List Char), (∀ c ∈ cs, p c = false) → cs.dropWhile p = cs := by
  intro cs
  induction cs with
  | nil => intro _; rfl
  | cons c rest _ =>
    intro h
    rw [List.dropWhile_cons, h c (List.mem_cons_self c rest)]
    simp

theorem jsTrim_of_all_digit {cs : List Char} (h : ∀ c ∈ cs, c.isDigit = true) :
    jsTrim cs = cs := by
  unfold jsTrim
  rw [dropWhile_all_not cs (fun c hc => digit_not_ws (h c hc))]
  rw [dropWhile_all_not cs.reverse (fun c hc => digit_not_ws (h c (List.mem_reverse.mp hc)))]
  simp

theorem jsParseInt_digits {cs : List Char} (hne : cs ≠ []) (hd : ∀ c ∈ cs, c.isDigit = true) :
    jsParseInt cs = some ((digitsVal cs : Nat) : Int) := by
  unfold jsParseInt
  rw [dropWhile_all_not cs (fun c hc => digit_not_ws (hd c hc))]
  cases cs with
  | nil => exact absurd rfl hne
  | cons c rest =>
    have hcd := hd c (List.mem_cons_self c rest)
    have h1 : c ≠ '-' := digit_ne_of_not_digit hcd (by decide)
    have h2 : c ≠ '+' := digit_ne_of_not_digit hcd (by decide)
    have htw : (c :: rest).takeWhile Char.isDigit = c :: rest := takeWhile_all _ hd
    split
    · rename_i heq; exact absurd (List.head_eq_of_cons_eq heq) h1
    · rename_i heq; exact absurd (List.head_eq_of_cons_eq heq) h2
    · simp [leadingDigitsVal, htw]

theorem jsNumberInt_digits {cs : List Char} (hne : cs ≠ []) (hd : ∀ c ∈ cs, c.isDigit = true) :
    jsNumberInt cs = some ((digitsVal cs : Nat) : Int) := by
  unfold jsNumberInt
  rw [jsTrim_of_all_digit hd]
  cases cs with
  | nil => exact absurd rfl hne
  | cons c rest =>
    have hcd := hd c (List.mem_cons_self c rest)
    have h1 : c ≠ '-' := digit_ne_of_not_digit hcd (by decide)
    have h2 : c ≠ '+' := digit_ne_of_not_digit hcd (by decide)
    split
    · rename_i heq; exact absurd heq (List.cons_ne_nil c rest)
    · rename_i heq; exact absurd (List.head_eq_of_cons_eq heq) h1
    · rename_i heq; exact absurd (List.head_eq_of_cons_eq heq) h2
    · rw [if_pos (List.all_eq_true.mpr hd)]

/- ### JavaScript split lemmas -/

theorem splitGo_not_mem {s0 : Char} {sep1 : List Char} :
    ∀ (cs acc : List Char), s0 ∉ cs → splitGo (s0 :: sep1) cs acc = [acc.reverse ++ cs] := by
  intro cs
  induction cs with
  | nil => intro acc _; simp [splitGo]
  | cons c rest ih =>
    intro acc h
    have hne : s0 ≠ c := fun e => h (e ▸ List.mem_cons_self c rest)
    have hpre : (s0 :: sep1).isPrefixOf (c :: rest) = false := by
      simp [List.isPrefixOf, beq_false_of_ne hne]
    simp only [splitGo]
    rw [dif_neg (by simp [hpre])]
    rw [ih (c :: acc) (fun m => h (List.mem_cons_of_mem c m))]
    simp

theorem splitGo_first_sep (s0 : Char) (sep1 tail acc : List Char) :
    splitGo (s0 :: sep1) (s0 :: (sep1 ++ tail)) acc =
      acc.reverse :: splitGo (s0 :: sep1) tail [] := by
  have hpre : (s0 :: sep1).isPrefixOf (s0 :: (sep1 ++ tail)) = true := by
    have : (s0 :: sep1) <+: (s0 :: (sep1 ++ tail)) := ⟨tail, by simp⟩
    exact List.isPrefixOf_iff_prefix.mpr this
  simp only [splitGo]
  rw [dif_pos ⟨hpre, List.cons_ne_nil s0 sep1⟩]
  congr 1
  have hlen : (s0 :: sep1).length = sep1.length + 1 := by simp
  rw [hlen]
  show splitGo (s0 :: sep1) ((sep1 ++ tail).drop sep1.length) [] = splitGo (s0 :: sep1) tail []
  rw [List.drop_left]

theorem splitGo_mid {ch : Char} :
    ∀ (pre tail acc : List Char), ch ∉ pre →
      splitGo [ch] (pre ++ ch :: tail) acc = (acc.reverse ++ pre) :: splitGo [ch] tail [] := by
  intro pre
  induction pre with
  | nil =>
    intro tail acc _
    have h := splitGo_first_sep ch [] tail acc
    simpa using h
  | cons p ps ih =>
    intro tail acc h
    have hne : ch ≠ p := fun e => h (e ▸ List.mem_cons_self p ps)
    have hpre : ([ch]).isPrefixOf (p :: (ps ++ ch :: tail)) = false := by
      simp [List.isPrefixOf, beq_false_of_ne hne]
    simp only [List.cons_append, splitGo]
    rw [dif_neg (by simp [hpre])]
    rw [ih tail (p :: acc) (fun m => h (List.mem_cons_of_mem p m))]
    simp

theorem jsSplit_no_sep {s0 : Char} {sep1 cs : List Char} (h : s0 ∉ cs) :
    jsSplit (s0 :: sep1) cs = [cs] := by
  unfold jsSplit
  rw [splitGo_not_mem cs [] h]
  simp

theorem jsSplit_single_mid {ch : Char} {pre tail : List Char} (h : ch ∉ pre) :
    jsSplit [ch] (pre ++ ch :: tail) = pre :: splitGo [ch] tail [] := by
  unfold jsSplit
  rw [splitGo_mid pre tail [] h]
  simp

theorem jsSplit_exact_sep {s0 : Char} {sep1 tail : List Char} (h : s0 ∉ tail) :
    jsSplit (s0 :: sep1) (s0 :: sep1 ++ tail) = [[], tail] := by
  unfold jsSplit
  have he : s0 :: sep1 ++ tail = s0 :: (sep1 ++ tail) := by simp
  rw [he, splitGo_first_sep, splitGo_not_mem tail [] h]
  simp

theorem jsSplit_joinWith {ch : Char} :
    ∀ (parts : List (List Char)), parts ≠ [] → (∀ p ∈ parts, ch ∉ p) →
      jsSplit [ch] (joinWith [ch] parts) = parts := by
  intro parts
  induction parts with
  | nil => intro h _; exact absurd rfl h
  | cons p rest ih =>
    intro _ hfree
    cases rest with
    | nil => exact jsSplit_no_sep (hfree p (List.mem_cons_self p []))
    | cons q rest2 =>
      have hjw : joinWith [ch] (p :: q :: rest2) = p ++ ch :: joinWith [ch] (q :: rest2) := by
        simp [joinWith]
      rw [hjw, jsSplit_single_mid (hfree p (List.mem_cons_self _ _))]
      have h2 := ih (List.cons_ne_nil q rest2) (fun x hx => hfree x (List.mem_cons_of_mem p hx))
      unfold jsSplit at h2
      rw [h2]

/- ### The index table's structure -/

theorem mem_chapterBlock {r : VerseIndex} {c start count : Nat} :
    r ∈ chapterBlock c start count ↔
      r.chapter = c ∧ 1 ≤ r.verse ∧ r.verse ≤ count ∧ r.verse_index = start + (r.verse - 1) := by
  unfold chapterBlock
  simp only [List.mem_map, List.mem_range]
  constructor
  · rintro ⟨k, hk, rfl⟩
    simp
    omega
  · rintro ⟨h1, h2, h3, h4⟩
    refine ⟨r.verse - 1, by omega, ?_⟩
    obtain ⟨rc, rv, ri⟩ := r
    simp only [VerseIndex.mk.injEq]
    simp only at h1 h2 h3 h4
    omega

theorem mem_buildIndices {r : VerseIndex} :
    ∀ (counts : List Nat) (c start : Nat),
      r ∈ buildIndices c start counts ↔
        ∃ j, ∃ hj : j < counts.length, r.chapter = c + j ∧ 1 ≤ r.verse ∧
          r.verse ≤ counts.get ⟨j, hj⟩ ∧
          r.verse_index = start + sumTo counts j + (r.verse - 1) := by
  intro counts
  induction counts with
  | nil => intro c start; simp [buildIndices]
  | cons cnt rest ih =>
    intro c start
    simp only [buildIndices, List.mem_append, mem_chapterBlock, ih]
    constructor
    · rintro (⟨h1, h2, h3, h4⟩ | ⟨j, hj, h1, h2, h3, h4⟩)
      · refine ⟨0, by simp, by simpa using h1, h2, by simpa using h3, ?_⟩
        simp [sumTo]
        omega
      · refine ⟨j + 1, by simpa using hj, by omega, h2, by simpa using h3, ?_⟩
        simp only [sumTo, List.take_succ_cons, List.sum_cons]
        simp only [sumTo] at h4
        omega
    · rintro ⟨j, hj, h1, h2, h3, h4⟩
      cases j with
      | zero =>
        left
        refine ⟨by simpa using h1, h2, by simpa using h3, ?_⟩
        simp [sumTo] at h4
        omega
      | succ j2 =>
        right
        refine ⟨j2, by simpa using hj, by omega, h2, by simpa using h3, ?_⟩
        simp only [sumTo, List.take_succ_cons, List.sum_cons] at h4
        simp only [sumTo]
        omega

theorem verseIndices_pair_unique {r1 r2 : VerseIndex} (h1 : r1 ∈ VerseIndices)
    (h2 : r2 ∈ VerseIndices) (hc : r1.chapter = r2.chapter) (hv : r1.verse = r2.verse) :
    r1 = r2 := by
  rw [VerseIndices, mem_buildIndices] at h1 h2
  obtain ⟨j1, hj1, a1, b1, c1, d1⟩ := h1
  obtain ⟨j2, hj2, a2, b2, c2, d2⟩ := h2
  have hj : j1 = j2 := by omega
  subst hj
  obtain ⟨x1, y1, z1⟩ := r1
  obtain ⟨x2, y2, z2⟩ := r2
  simp only [VerseIndex.mk.injEq]
  simp only at a1 b1 c1 d1 a2 b2 c2 d2 hc hv
  omega

theorem chapter_inhabited {N : Nat} (h1 : 1 ≤ N) (h2 : N ≤ 114) :
    ∃ r ∈ VerseIndices, r.chapter = N := by
  have hlen : chapterVerseCounts.length = 114 := by rfl
  have hpos : ∀ x ∈ chapterVerseCounts, 0 < x := by decide
  refine ⟨⟨N, 1, 1 + sumTo chapterVerseCounts (N - 1)⟩, ?_, rfl⟩
  rw [VerseIndices, mem_buildIndices]
  refine ⟨N - 1, by omega, by simp; omega, by simp, ?_, by simp⟩
  exact hpos _ (List.get_mem _ _ _)

/- ### The verse key is an exact-match key -/

theorem colon_split_inj {xs : List Char} :
    ∀ {ys us vs : List Char}, ':' ∉ xs → ':' ∉ ys →
      xs ++ ':' :: us = ys ++ ':' :: vs → xs = ys ∧ us = vs := by
  induction xs with
  | nil =>
    intro ys us vs _ hy h
    cases ys with
    | nil => simpa using h
    | cons y ys2 =>
      simp only [List.nil_append, List.cons_append, List.cons.injEq] at h
      exact absurd (h.1 ▸ List.mem_cons_self y ys2) hy
  | cons x xs2 ih =>
    intro ys us vs hx hy h
    cases ys with
    | nil =>
      simp only [List.nil_append, List.cons_append, List.cons.injEq] at h
      exact absurd (h.1.symm ▸ List.mem_cons_self x xs2) hx
    | cons y ys2 =>
      simp only [List.cons_append, List.cons.injEq] at h
      obtain ⟨hxy, h2⟩ := h
      have hr := ih (fun m => hx (List.mem_cons_of_mem x m))
        (fun m => hy (List.mem_cons_of_mem y m)) h2
      exact ⟨by rw [hxy, hr.1], hr.2⟩

theorem repr_no_colon (n : Nat) : ':' ∉ (Nat.repr n).data := by
  intro m
  exact absurd (repr_all_digit n ':' m) (by decide)

theorem keyOf_inj {i r : VerseIndex} (h : keyOf i = keyOf r) :
    i.chapter = r.chapter ∧ i.verse = r.verse := by
  unfold keyOf at h
  have hk := colon_split_inj (repr_no_colon i.chapter) (repr_no_colon r.chapter) h
  exact ⟨repr_data_inj hk.1, repr_data_inj hk.2⟩

theorem find_eq_of_mem {α : Type} {p : α → Bool} :
    ∀ (l : List α) (a : α), a ∈ l → p a = true → (∀ b ∈ l, p b = true → b = a) →
      l.find? p = some a := by
  intro l
  induction l with
  | nil => intro a ha; simp at ha
  | cons b rest ih =>
    intro a ha hpa huniq
    by_cases hb : p b = true
    · rw [List.find?_cons_of_pos _ hb]
      rw [huniq b (List.mem_cons_self _ _) hb]
    · rw [List.find?_cons_of_neg _ (by simpa using hb)]
      have ha2 : a ∈ rest := by
        rcases List.mem_cons.mp ha with rfl | h2
        · exact absurd hpa hb
        · exact h2
      exact ih a ha2 hpa (fun x hx hpx => huniq x (List.mem_cons_of_mem _ hx) hpx)

theorem keyOf_ne_nil (r : VerseIndex) : keyOf r ≠ [] := by
  unfold keyOf
  intro e
  exact repr_ne_nil r.chapter (List.append_eq_nil.mp e).1

theorem isVerseType_self {r : VerseIndex} (h : r ∈ VerseIndices) :
    isVerseType VerseIndices (keyOf r) = some r := by
  unfold isVerseType
  rw [if_neg (keyOf_ne_nil r)]
  apply find_eq_of_mem VerseIndices r h
  · simp
  · intro b hb hpb
    have hkb : keyOf b = keyOf r := by simpa using hpb
    obtain ⟨hc, hv⟩ := keyOf_inj hkb
    exact verseIndices_pair_unique hb h hc hv

theorem isVerseType_exact {idx : List VerseIndex} {q : List Char} {r : VerseIndex}
    (h : isVerseType idx q = some r) : keyOf r = q := by
  unfold isVerseType at h
  by_cases he : q = []
  · rw [if_pos he] at h; cases h
  · rw [if_neg he] at h
    have hf := List.find?_some h
    simpa using hf

/- ### The chapter rule on integer queries -/

theorem jsStartsWith_chapter_false {cs : List Char} (hne : cs ≠ [])
    (hd : ∀ c ∈ cs, c.isDigit = true) : jsStartsWith cs ("chapter:".data) = false := by
  cases cs with
  | nil => exact absurd rfl hne
  | cons c rest =>
    have hcd := hd c (List.mem_cons_self c rest)
    have hcc : 'c' ≠ c := (digit_ne_of_not_digit hcd (by decide)).symm
    show ("chapter:".data).isPrefixOf (c :: rest) = false
    have he : ("chapter:".data) = 'c' :: ("hapter:".data) := rfl
    rw [he]
    simp [List.isPrefixOf, beq_false_of_ne hcc]

theorem repr_no_c (n : Nat) : 'c' ∉ (Nat.repr n).data := by
  intro m
  exact absurd (repr_all_digit n 'c' m) (by decide)

theorem isChapterType_num (idx : List VerseIndex) (N : Nat) (q : List Char)
    (hform : q = (Nat.repr N).data ∨ q = "chapter:".data ++ (Nat.repr N).data) :
    isChapterType idx q =
      if 1 ≤ N ∧ N ≤ 114 then
        (if 0 < (idx.filter (fun i => (i.chapter : Int) == (N : Int))).length then
          some (idx.filter (fun i => (i.chapter : Int) == (N : Int)))
        else none)
      else none := by
  have hne := repr_ne_nil N
  have hd := repr_all_digit N
  have htail :
      (if (Nat.repr N).data ≠ [] then
        (match jsParseInt (Nat.repr N).data with
          | some n =>
              if 1 ≤ n ∧ n ≤ 114 then
                (if 0 < (idx.filter (fun i => (i.chapter : Int) == n)).length then
                  some (idx.filter (fun i => (i.chapter : Int) == n))
                else none)
              else none
          | none => none)
      else none) =
      if 1 ≤ N ∧ N ≤ 114 then
        (if 0 < (idx.filter (fun i => (i.chapter : Int) == (N : Int))).length then
          some (idx.filter (fun i => (i.chapter : Int) == (N : Int)))
        else none)
      else none := by
    rw [if_pos hne, jsParseInt_digits hne hd, digitsVal_repr]
    show (if 1 ≤ (N : Int) ∧ (N : Int) ≤ 114 then
            (if 0 < (idx.filter (fun i => (i.chapter : Int) == (N : Int))).length then
              some (idx.filter (fun i => (i.chapter : Int) == (N : Int)))
            else none)
          else none) = _
    have hiff : (1 ≤ (N : Int) ∧ (N : Int) ≤ 114) ↔ (1 ≤ N ∧ N ≤ 114) := by
      constructor <;> (intro h; constructor <;> omega)
    by_cases hr : 1 ≤ N ∧ N ≤ 114
    · rw [if_pos (hiff.mpr hr), if_pos hr]
    · rw [if_neg (fun hh => hr (hiff.mp hh)), if_neg hr]
  rcases hform with rfl | rfl
  · unfold isChapterType
    rw [if_neg hne]
    simp only [jsStartsWith_chapter_false hne hd, Bool.false_eq_true, if_false]
    rw [if_pos ⟨hne, List.all_eq_true.mpr hd⟩]
    exact htail
  · have hq : "chapter:".data ++ (Nat.repr N).data = 'c' :: ("hapter:".data ++ (Nat.repr N).data) := rfl
    have hqne : "chapter:".data ++ (Nat.repr N).data ≠ [] := by rw [hq]; simp
    have hnd : ¬ ("chapter:".data ++ (Nat.repr N).data ≠ [] ∧
        ("chapter:".data ++ (Nat.repr N).data).all Char.isDigit = true) := by
      rintro ⟨-, hall⟩
      rw [hq] at hall
      have := (List.all_eq_true.mp hall) 'c' (List.mem_cons_self _ _)
      simp at this
    have hsw : jsStartsWith ("chapter:".data ++ (Nat.repr N).data) ("chapter:".data) = true := by
      show (("chapter:".data).isPrefixOf _) = true
      exact List.isPrefixOf_iff_prefix.mpr ⟨(Nat.repr N).data, rfl⟩
    have hsplit : jsSplit ("chapter:".data) ("chapter:".data ++ (Nat.repr N).data) =
        [[], (Nat.repr N).data] := by
      exact @jsSplit_exact_sep 'c' ("hapter:".data) ((Nat.repr N).data) (repr_no_c N)
    unfold isChapterType
    rw [if_neg hqne]
    simp only [hsw, if_true, hsplit, List.get?]
    rw [if_neg hnd]
    exact htail

theorem filter_chapter_cast (idx : List VerseIndex) (N : Nat) :
    idx.filter (fun i => (i.chapter : Int) == (N : Int)) =
      idx.filter (fun i => i.chapter == N) := by
  apply List.filter_congr
  intro i _
  show ((i.chapter : Int) == (N : Int)) = (i.chapter == N)
  by_cases h : i.chapter = N
  · rw [h]; simp
  · have h2 : (i.chapter : Int) ≠ (N : Int) := by exact_mod_cast h
    rw [beq_false_of_ne h, beq_false_of_ne h2]

theorem chapter_filter_head {idx : List VerseIndex} {N : Nat} {r : VerseIndex}
    {rest : List VerseIndex} (h : idx.filter (fun i => i.chapter == N) = r :: rest) :
    r.chapter = N := by
  have hm : r ∈ idx.filter (fun i => i.chapter == N) := by
    rw [h]; exact List.mem_cons_self _ _
  have hp := (List.mem_filter.mp hm).2
  simpa using hp

theorem classify_chapter_of {q : String} {N : Nat}
    (hq : isChapterType VerseIndices q.data =
      some (VerseIndices.filter (fun i => i.chapter == N)))
    (hcons : ∃ r rest, VerseIndices.filter (fun i => i.chapter == N) = r :: rest) :
    parseQuery VerseIndices q [] =
      .ok (.valid ⟨.chapter, q, VerseIndices.filter (fun i => i.chapter == N),
        defaultQueryOptions, "Chapter " ++ Nat.repr N⟩) := by
  obtain ⟨r, rest, hfil⟩ := hcons
  have hrc : r.chapter = N := chapter_filter_head hfil
  have hp : parseQuery VerseIndices q [] =
      .ok (classifyQuery VerseIndices q defaultQueryOptions) := rfl
  rw [hp]
  unfold classifyQuery
  simp only [hq, hfil, List.get?, Option.map_some', Option.getD_some, hrc]

/-- C5. For every integer N in [1,114], classifying the bare decimal
numeral of N and classifying the string `chapter:N` (under default options)
produce the same valid chapter-type result, whose indices set is exactly
the index records whose chapter field equals N; for every integer outside
[1,114], both query forms fall through the chapter rule (it yields no
match). -/
theorem chapter_classification (N : Nat) :
    (1 ≤ N → N ≤ 114 →
      parseQuery VerseIndices (Nat.repr N) [] =
        .ok (.valid ⟨.chapter, Nat.repr N,
          VerseIndices.filter (fun i => i.chapter == N), defaultQueryOptions,
          "Chapter " ++ Nat.repr N⟩) ∧
      parseQuery VerseIndices (strOf ("chapter:".data ++ (Nat.repr N).data)) [] =
        .ok (.valid ⟨.chapter, strOf ("chapter:".data ++ (Nat.repr N).data),
          VerseIndices.filter (fun i => i.chapter == N), defaultQueryOptions,
          "Chapter " ++ Nat.repr N⟩)) ∧
    (¬ (1 ≤ N ∧ N ≤ 114) →
      isChapterType VerseIndices (Nat.repr N).data = none ∧
      isChapterType VerseIndices ("chapter:".data ++ (Nat.repr N).data) = none) := by
  constructor
  · intro h1 h2
    obtain ⟨r, hr, hrc⟩ := chapter_inhabited h1 h2
    have hmem : r ∈ VerseIndices.filter (fun i => i.chapter == N) :=
      List.mem_filter.mpr ⟨hr, by simp [hrc]⟩
    have hpos : 0 < (VerseIndices.filter (fun i => (i.chapter : Int) == (N : Int))).length := by
      rw [filter_chapter_cast]
      exact List.length_pos.mpr (List.ne_nil_of_mem hmem)
    have hcons : ∃ a rest, VerseIndices.filter (fun i => i.chapter == N) = a :: rest := by
      cases hfil : VerseIndices.filter (fun i => i.chapter == N) with
      | nil => rw [hfil] at hmem; cases hmem
      | cons a rest => exact ⟨a, rest, rfl⟩
    have hq1 : isChapterType VerseIndices (Nat.repr N).data =
        some (VerseIndices.filter (fun i => i.chapter == N)) := by
      rw [isChapterType_num VerseIndices N _ (Or.inl rfl), if_pos ⟨h1, h2⟩, if_pos hpos,
        filter_chapter_cast]
    have hq2 : isChapterType VerseIndices ("chapter:".data ++ (Nat.repr N).data) =
        some (VerseIndices.filter (fun i => i.chapter == N)) := by
      rw [isChapterType_num VerseIndices N _ (Or.inr rfl), if_pos ⟨h1, h2⟩, if_pos hpos,
        filter_chapter_cast]
    exact ⟨classify_chapter_of hq1 hcons, classify_chapter_of hq2 hcons⟩
  · intro hout
    constructor
    · rw [isChapterType_num VerseIndices N _ (Or.inl rfl), if_neg hout]
    · rw [isChapterType_num VerseIndices N _ (Or.inr rfl), if_neg hout]

/-- Witness for C5 at N = 2: both query forms classify to chapter 2's
records. -/
theorem chapter_classification_witness :
    parseQuery VerseIndices (Nat.repr 2) [] =
      .ok (.valid ⟨.chapter, Nat.repr 2,
        VerseIndices.filter (fun i => i.chapter == 2), defaultQueryOptions,
        "Chapter " ++ Nat.repr 2⟩) ∧
    parseQuery VerseIndices (strOf ("chapter:".data ++ (Nat.repr 2).data)) [] =
      .ok (.valid ⟨.chapter, strOf ("chapter:".data ++ (Nat.repr 2).data),
        VerseIndices.filter (fun i => i.chapter == 2), defaultQueryOptions,
        "Chapter " ++ Nat.repr 2⟩) :=
  (chapter_classification 2).1 (by decide) (by decide)

theorem strOf_data (cs : List Char) : (strOf cs).data = cs := rfl

theorem keyOf_head (r : VerseIndex) : ∃ d tail, keyOf r = d :: tail ∧ d.isDigit = true := by
  unfold keyOf
  cases hc : (Nat.repr r.chapter).data with
  | nil => exact absurd hc (repr_ne_nil r.chapter)
  | cons d t =>
    refine ⟨d, t ++ ':' :: (Nat.repr r.verse).data, by simp, ?_⟩
    exact repr_all_digit r.chapter d (by rw [hc]; exact List.mem_cons_self d t)

theorem isChapterType_keyOf (r : VerseIndex) : isChapterType VerseIndices (keyOf r) = none := by
  obtain ⟨d, tail, hk, hd⟩ := keyOf_head r
  have hsw : jsStartsWith (keyOf r) ("chapter:".data) = false := by
    rw [hk]
    have hne : 'c' ≠ d := (digit_ne_of_not_digit hd (by decide)).symm
    show ("chapter:".data).isPrefixOf (d :: tail) = false
    have he : "chapter:".data = 'c' :: "hapter:".data := rfl
    rw [he]
    simp [List.isPrefixOf, beq_false_of_ne hne]
  have hdig : ¬ (keyOf r ≠ [] ∧ (keyOf r).all Char.isDigit = true) := by
    rintro ⟨-, hall⟩
    have hcol : ':' ∈ keyOf r := by
      unfold keyOf
      exact List.mem_append_right _ (List.mem_cons_self _ _)
    have := List.all_eq_true.mp hall ':' hcol
    simp at this
  unfold isChapterType
  rw [if_neg (keyOf_ne_nil r)]
  simp only [hsw, Bool.false_eq_true, if_false]
  rw [if_neg hdig]

/-- C9. For every (chapter, verse) pair present in the index, classifying
its exact `"{chapter}:{verse}"` string (under default options) yields
valid=true, type=verse, with exactly that one record as indices; the rule
matches by exact string equality — any query it accepts is literally the
matched record's `"{chapter}:{verse}"` string — so alternate formattings of
a pair never match: in particular "01:1" resolves to no verse record. -/
theorem verse_classification :
    (∀ r ∈ VerseIndices,
      parseQuery VerseIndices (strOf (keyOf r)) [] =
        .ok (.valid ⟨.verse, strOf (keyOf r), [r], defaultQueryOptions,
          "Verse " ++ Nat.repr r.chapter ++ ":" ++ Nat.repr r.verse⟩)) ∧
    (∀ (idx : List VerseIndex) (q : List Char) (r : VerseIndex),
      isVerseType idx q = some r → keyOf r = q) ∧
    isVerseType VerseIndices ("01:1".data) = none := by
  refine ⟨?_, fun idx q r h => isVerseType_exact h, ?_⟩
  · intro r hr
    have hp : parseQuery VerseIndices (strOf (keyOf r)) [] =
        .ok (classifyQuery VerseIndices (strOf (keyOf r)) defaultQueryOptions) := rfl
    rw [hp]
    unfold classifyQuery
    simp only [strOf_data, isChapterType_keyOf r, isVerseType_self hr]
  · unfold isVerseType
    rw [if_neg (by decide)]
    rw [List.find?_eq_none]
    intro i _ hp
    have hk : keyOf i = "01:1".data := by simpa using hp
    unfold keyOf at hk
    have h01 : "01:1".data = ['0', '1'] ++ ':' :: ['1'] := by decide
    rw [h01] at hk
    have hsplit := colon_split_inj (repr_no_colon i.chapter) (by decide) hk
    have hc : (Nat.repr i.chapter).data = ['0', '1'] := hsplit.1
    have hval : i.chapter = 1 := by
      have h2 := congrArg digitsVal hc
      rw [digitsVal_repr] at h2
      exact h2.trans (by decide)
    rw [hval] at hc
    exact absurd hc (by decide)

/-- Witness for C9 at the first index record (1:1). -/
theorem verse_classification_witness :
    parseQuery VerseIndices (strOf (keyOf ⟨1, 1, 1⟩)) [] =
      .ok (.valid ⟨.verse, strOf (keyOf ⟨1, 1, 1⟩), [⟨1, 1, 1⟩], defaultQueryOptions,
        "Verse " ++ Nat.repr 1 ++ ":" ++ Nat.repr 1⟩) :=
  verse_classification.1 ⟨1, 1, 1⟩ (by decide)

/- ### The verse-range rule on numeral queries -/

theorem repr_no_dash (n : Nat) : '-' ∉ (Nat.repr n).data := by
  intro m
  exact absurd (repr_all_digit n '-' m) (by decide)

theorem filter_range_cast (idx : List VerseIndex) (c s e : Nat) :
    idx.filter (fun i =>
        ((i.chapter : Int) == (c : Int)) && ((s : Int) ≤ (i.verse : Int))
          && ((i.verse : Int) ≤ (e : Int))) =
      idx.filter (fun i => (i.chapter == c) && (s ≤ i.verse) && (i.verse ≤ e)) := by
  apply List.filter_congr
  intro i _
  by_cases h1 : i.chapter = c
  · by_cases h2 : s ≤ i.verse
    · by_cases h3 : i.verse ≤ e
      · simp only [h1, beq_self_eq_true, Bool.true_and]
        rw [decide_eq_true (by exact_mod_cast h2), decide_eq_true (by exact_mod_cast h3),
          decide_eq_true h2, decide_eq_true h3]
      · have h3i : ¬ ((i.verse : Int) ≤ (e : Int)) := by exact_mod_cast h3
        simp [h1, h2, h3, h3i]
    · have h2i : ¬ ((s : Int) ≤ (i.verse : Int)) := by exact_mod_cast h2
      simp [h1, h2, h2i]
  · have h1i : (i.chapter : Int) ≠ (c : Int) := by exact_mod_cast h1
    simp [beq_false_of_ne h1, beq_false_of_ne h1i]

theorem isVerseRangeType_num (idx : List VerseIndex) (c s e : Nat) :
    isVerseRangeType idx
        ((Nat.repr c).data ++ ':' :: ((Nat.repr s).data ++ '-' :: (Nat.repr e).data)) =
      (if 0 < (idx.filter (fun i => (i.chapter == c) && (s ≤ i.verse) && (i.verse ≤ e))).length
        then some (idx.filter (fun i => (i.chapter == c) && (s ≤ i.verse) && (i.verse ≤ e)))
        else none) := by
  set q := (Nat.repr c).data ++ ':' :: ((Nat.repr s).data ++ '-' :: (Nat.repr e).data) with hqdef
  have hqne : q ≠ [] := by
    intro h
    exact repr_ne_nil c (List.append_eq_nil.mp h).1
  have hdashmem : '-' ∈ q := by
    rw [hqdef]
    exact List.mem_append_right _ (List.mem_cons_of_mem _ (List.mem_append_right _
      (List.mem_cons_self _ _)))
  have hcontains : q.contains '-' = true := by
    simp [List.contains, hdashmem]
  have hends : jsEndsWith q [ '-' ] = false := by
    show (([ '-' ] : List Char).reverse.isPrefixOf q.reverse) = false
    cases hrev : (Nat.repr e).data.reverse with
    | nil =>
        exact absurd (by simpa using congrArg List.reverse hrev) (repr_ne_nil e)
    | cons d t =>
        have hdn : d.isDigit = true := by
          have : d ∈ (Nat.repr e).data.reverse := by rw [hrev]; exact List.mem_cons_self d t
          exact repr_all_digit e d (List.mem_reverse.mp this)
        have hq2 : q = ((Nat.repr c).data ++ ':' :: (Nat.repr s).data ++ [ '-' ])
            ++ (Nat.repr e).data := by
          rw [hqdef]; simp
        rw [hq2, List.reverse_append, hrev]
        have hne2 : '-' ≠ d := (digit_ne_of_not_digit hdn (by decide)).symm
        simp [List.isPrefixOf, beq_false_of_ne hne2]
  have hcond : ¬ (¬ q.contains '-' = true ∨ jsEndsWith q [ '-' ] = true) := by
    rintro (h | h)
    · exact h hcontains
    · rw [hends] at h; cases h
  have hsplitColon : jsSplit [ ':' ] q =
      (Nat.repr c).data :: splitGo [ ':' ] ((Nat.repr s).data ++ '-' :: (Nat.repr e).data) [] := by
    rw [hqdef]
    exact jsSplit_single_mid (repr_no_colon c)
  have hsplitDash : jsSplit [ '-' ] q =
      ((Nat.repr c).data ++ ':' :: (Nat.repr s).data) :: [(Nat.repr e).data] := by
    have hq2 : q = ((Nat.repr c).data ++ ':' :: (Nat.repr s).data) ++ '-' :: (Nat.repr e).data := by
      rw [hqdef]; simp
    have hnod : '-' ∉ (Nat.repr c).data ++ ':' :: (Nat.repr s).data := by
      intro m
      rcases List.mem_append.mp m with h | h
      · exact repr_no_dash c h
      · rcases List.mem_cons.mp h with h2 | h2
        · cases h2
        · exact repr_no_dash s h2
    rw [hq2, jsSplit_single_mid hnod, splitGo_not_mem _ [] (repr_no_dash e)]
    simp
  have hsplitInner : jsSplit [ ':' ] ((Nat.repr c).data ++ ':' :: (Nat.repr s).data) =
      [(Nat.repr c).data, (Nat.repr s).data] := by
    rw [jsSplit_single_mid (repr_no_colon c)]
    rw [splitGo_not_mem _ [] (repr_no_colon s)]
    simp
  have hnumC : jsNumberInt (Nat.repr c).data = some ((c : Nat) : Int) := by
    rw [jsNumberInt_digits (repr_ne_nil c) (repr_all_digit c), digitsVal_repr]
  have hnumS : jsNumberInt (Nat.repr s).data = some ((s : Nat) : Int) := by
    rw [jsNumberInt_digits (repr_ne_nil s) (repr_all_digit s), digitsVal_repr]
  have hnumE : jsNumberInt (Nat.repr e).data = some ((e : Nat) : Int) := by
    rw [jsNumberInt_digits (repr_ne_nil e) (repr_all_digit e), digitsVal_repr]
  unfold isVerseRangeType
  rw [if_neg hqne, if_neg hcond]
  simp only [hsplitColon, hsplitDash, hsplitInner, List.get?, Option.some_bind, optNumber,
    hnumC, hnumS, hnumE, gt_iff_lt]
  rw [filter_range_cast]

theorem keyOf_chars {i : VerseIndex} : ∀ c ∈ keyOf i, c.isDigit = true ∨ c = ':' := by
  intro c hc
  unfold keyOf at hc
  rcases List.mem_append.mp hc with h | h
  · exact Or.inl (repr_all_digit _ c h)
  · rcases List.mem_cons.mp h with rfl | h2
    · exact Or.inr rfl
    · exact Or.inl (repr_all_digit _ c h2)

theorem isVerseType_none_of_bad {idx : List VerseIndex} {q : List Char} {c : Char}
    (hc : c ∈ q) (hd : c.isDigit = false) (hne : c ≠ ':') : isVerseType idx q = none := by
  unfold isVerseType
  by_cases he : q = []
  · rw [if_pos he]
  · rw [if_neg he, List.find?_eq_none]
    intro i _ hp
    have hk : keyOf i = q := by simpa using hp
    rcases keyOf_chars (i := i) c (hk ▸ hc) with h | h
    · rw [hd] at h; cases h
    · exact hne h

/-- C8. For every input of the numeral form `<chapter>:<start>-<end>` (which
contains a hyphen and does not end with one, so it reaches the verse-range
rule), the rule collects exactly the index records whose chapter matches
and whose verse lies in [start, end] inclusive, in index-table order, and
falls through (`none`) exactly when that collection is empty; classifying
"1:1-3" yields exactly the 3 ordered records for verses 1, 2, 3 of
chapter 1. -/
theorem verse_range_spec :
    (∀ (idx : List VerseIndex) (c s e : Nat),
      isVerseRangeType idx
          ((Nat.repr c).data ++ ':' :: ((Nat.repr s).data ++ '-' :: (Nat.repr e).data)) =
        (if 0 < (idx.filter (fun i => (i.chapter == c) && (s ≤ i.verse) && (i.verse ≤ e))).length
          then some (idx.filter (fun i => (i.chapter == c) && (s ≤ i.verse) && (i.verse ≤ e)))
          else none)) ∧
    parseQuery VerseIndices "1:1-3" [] =
      .ok (.valid ⟨.verse_range, "1:1-3",
        [⟨1, 1, 1⟩, ⟨1, 2, 2⟩, ⟨1, 3, 3⟩], defaultQueryOptions, "Verses 1:1-3"⟩) := by
  constructor
  · exact isVerseRangeType_num
  · have hq : ("1:1-3".data) =
        (Nat.repr 1).data ++ ':' :: ((Nat.repr 1).data ++ '-' :: (Nat.repr 3).data) := by decide
    have hchap : isChapterType VerseIndices ("1:1-3".data) = none := by decide
    have hverse : isVerseType VerseIndices ("1:1-3".data) = none :=
      isVerseType_none_of_bad (c := '-') (by decide) (by decide) (by decide)
    have hfil : VerseIndices.filter (fun i => (i.chapter == 1) && (1 ≤ i.verse) && (i.verse ≤ 3)) =
        [⟨1, 1, 1⟩, ⟨1, 2, 2⟩, ⟨1, 3, 3⟩] := by decide
    have hrange : isVerseRangeType VerseIndices ("1:1-3".data) =
        some [⟨1, 1, 1⟩, ⟨1, 2, 2⟩, ⟨1, 3, 3⟩] := by
      rw [hq, isVerseRangeType_num, hfil]
      decide
    have hp : parseQuery VerseIndices "1:1-3" [] =
        .ok (classifyQuery VerseIndices "1:1-3" defaultQueryOptions) := rfl
    rw [hp]
    unfold classifyQuery
    simp only [hchap, hverse, hrange]
    decide

/- ### The multiple-verses rule -/

theorem foldl_append_eq_flatMap {α β : Type} (f : β → List α) :
    ∀ (l : List β) (acc : List α), l.foldl (fun a b => a ++ f b) acc = acc ++ l.flatMap f := by
  intro l
  induction l with
  | nil => intro acc; simp
  | cons b rest ih =>
    intro acc
    rw [List.foldl_cons, ih (acc ++ f b)]
    simp [List.flatMap_cons]

theorem joinWith_two_ne_nil {ch : Char} {p q : List Char} {rest : List (List Char)} :
    joinWith [ch] (p :: q :: rest) ≠ [] := by
  have hjw : joinWith [ch] (p :: q :: rest) = p ++ ch :: joinWith [ch] (q :: rest) := by
    simp [joinWith]
  rw [hjw]
  cases p <;> simp

theorem multiple_verses_rule (idx : List VerseIndex) (parts : List (List Char))
    (hlen : 2 ≤ parts.length) (hfree : ∀ p ∈ parts, ',' ∉ p) :
    isMultipleVersesType idx (joinWith [ ',' ] parts) =
      (if 0 < (parts.flatMap (resolveComponent idx)).length
        then some (parts.flatMap (resolveComponent idx))
        else none) := by
  obtain ⟨p, q, rest, rfl⟩ : ∃ p q rest, parts = p :: q :: rest := by
    cases parts with
    | nil => simp at hlen
    | cons p rest1 =>
      cases rest1 with
      | nil => simp at hlen
      | cons q rest => exact ⟨p, q, rest, rfl⟩
  have hne : joinWith [ ',' ] (p :: q :: rest) ≠ [] := joinWith_two_ne_nil
  have hmem : ',' ∈ joinWith [ ',' ] (p :: q :: rest) := by
    have hjw : joinWith [ ',' ] (p :: q :: rest) = p ++ ',' :: joinWith [ ',' ] (q :: rest) := by
      simp [joinWith]
    rw [hjw]
    exact List.mem_append_right _ (List.mem_cons_self _ _)
  have hcont : (joinWith [ ',' ] (p :: q :: rest)).contains ',' = true := by
    simp [List.contains, hmem]
  unfold isMultipleVersesType
  rw [if_neg hne, if_neg (by rw [hcont]; simp)]
  rw [jsSplit_joinWith _ (List.cons_ne_nil _ _) hfree]
  rw [foldl_append_eq_flatMap]
  simp

/-- C4. For every input assembled by joining two or more comma-free
components with commas (so it contains a comma and reaches the
multiple-verses rule), classification splits the input on commas, trims
each component, resolves it as a single verse (one record) or a verse
range (its records), silently skips components matching neither, and
returns the collected records concatenated in input component order; the
rule falls through exactly when no component resolved. Classifying
"1:1,2:255,3:8" yields exactly 3 records in input order even though 3:8
has a later global ordinal than 2:255. -/
theorem multiple_verses_spec :
    (∀ (idx : List VerseIndex) (parts : List (List Char)),
      2 ≤ parts.length → (∀ p ∈ parts, ',' ∉ p) →
      (isMultipleVersesType idx (joinWith [ ',' ] parts) =
        (if 0 < (parts.flatMap (resolveComponent idx)).length
          then some (parts.flatMap (resolveComponent idx))
          else none)) ∧
      (isMultipleVersesType idx (joinWith [ ',' ] parts) = none ↔
        ∀ p ∈ parts, resolveComponent idx p = [])) ∧
    parseQuery VerseIndices "1:1,2:255,3:8" [] =
      .ok (.valid ⟨.multiple_verses, "1:1,2:255,3:8",
        [⟨1, 1, 1⟩, ⟨2, 255, 262⟩, ⟨3, 8, 301⟩], defaultQueryOptions,
        "Verses 1:1,2:255,3:8"⟩) := by
  constructor
  · intro idx parts hlen hfree
    have hrule := multiple_verses_rule idx parts hlen hfree
    refine ⟨hrule, ?_⟩
    rw [hrule]
    constructor
    · intro hnone
      have hz : ¬ 0 < (parts.flatMap (resolveComponent idx)).length := by
        intro h
        rw [if_pos h] at hnone
        cases hnone
      have hnil : parts.flatMap (resolveComponent idx) = [] := by
        cases hb : parts.flatMap (resolveComponent idx) with
        | nil => rfl
        | cons x xs => rw [hb] at hz; simp at hz
      exact fun p hp => List.flatMap_eq_nil_iff.mp hnil p hp
    · intro hall
      have hnil : parts.flatMap (resolveComponent idx) = [] := List.flatMap_eq_nil_iff.mpr hall
      rw [hnil]
      simp
  · have hchap : isChapterType VerseIndices ("1:1,2:255,3:8".data) = none := by decide
    have hverse : isVerseType VerseIndices ("1:1,2:255,3:8".data) = none :=
      isVerseType_none_of_bad (c := ',') (by decide) (by decide) (by decide)
    have hrangeN : isVerseRangeType VerseIndices ("1:1,2:255,3:8".data) = none := by decide
    have hparts : joinWith [ ',' ] [("1:1".data), ("2:255".data), ("3:8".data)] =
        ("1:1,2:255,3:8".data) := by decide
    have hmult : isMultipleVersesType VerseIndices ("1:1,2:255,3:8".data) =
        some [⟨1, 1, 1⟩, ⟨2, 255, 262⟩, ⟨3, 8, 301⟩] := by
      rw [← hparts, multiple_verses_rule _ _ (by decide) (by decide)]
      decide
    have hp : parseQuery VerseIndices "1:1,2:255,3:8" [] =
        .ok (classifyQuery VerseIndices "1:1,2:255,3:8" defaultQueryOptions) := rfl
    rw [hp]
    unfold classifyQuery
    simp only [hchap, hverse, hrangeN, hmult]
    decide

/- ### Option parsing runs outside the try block (C1) -/

/-- C1. parseQuery is not total on option bags that fail validation:
QueryOptions.parse runs before the try block (methods.ts line 13), so an
invalid option — here `sort_results` bound to a number — escapes as a
thrown ZodError instead of being caught and reported as
`{valid:false, error:"Internal server error"}`; for every option bag that
does validate, parseQuery returns a ParsedQuery (the classification
cascade itself cannot raise). -/
theorem parseQuery_option_fault :
    parseQuery VerseIndices "1:1" [("sort_results", JVal.jnum 0)] = .error "ZodError" ∧
    (∀ (idx : List VerseIndex) (q : String) (opts : List (String × JVal)) (po : QueryOptions),
      parseQueryOptions opts = .ok po → parseQuery idx q opts = .ok (classifyQuery idx q po)) := by
  constructor
  · rfl
  · intro idx q opts po h
    unfold parseQuery
    rw [h]

/- ### Config defaulting (C10) -/

/-- C10. Config defaulting coalesces on falsiness, not absence: explicitly
supplying 0 for retryCount, timeoutMs, retryDelayMs or cacheMaxAgeMs
resolves to the documented default (3, 10000, 1000, 300000 respectively),
and consequently the resolved retryCount is never 0 — retries cannot be
disabled that way. -/
theorem config_falsy_defaults (c : APIConfigInput) :
    (resolveConfig { c with retryCount := some 0 }).retryCount = 3 ∧
    (resolveConfig { c with timeoutMs := some 0 }).timeoutMs = 10000 ∧
    (resolveConfig { c with retryDelayMs := some 0 }).retryDelayMs = 1000 ∧
    (resolveConfig { c with cacheMaxAgeMs := some 0 }).cacheMaxAgeMs = 300000 ∧
    (resolveConfig c).retryCount ≠ 0 := by
  refine ⟨rfl, rfl, rfl, rfl, ?_⟩
  show jsOrNat c.retryCount 3 ≠ 0
  unfold jsOrNat
  cases c.retryCount with
  | none => simp
  | some n => by_cases h : n = 0 <;> simp [h]

/- ### Cache keys and serialization order (C3) -/

/-- C3 counterexample: two option bags that are equal as key-to-value maps
(every key looks up the same value) but were inserted in different orders
produce different cache keys, because JSON.stringify serializes fields in
insertion order. -/
theorem cacheKey_order_counterexample :
    (∀ k : String,
      jlookup k [("a", JVal.jnum 1), ("b", JVal.jnum 2)] =
        jlookup k [("b", JVal.jnum 2), ("a", JVal.jnum 1)]) ∧
    generateCacheKey "q" [("a", JVal.jnum 1), ("b", JVal.jnum 2)] ≠
      generateCacheKey "q" [("b", JVal.jnum 2), ("a", JVal.jnum 1)] := by
  constructor
  · intro k
    by_cases ha : "a" = k
    · by_cases hb : "b" = k
      · exact absurd (ha.trans hb.symm) (by decide)
      · simp [jlookup, ha, hb]
    · by_cases hb : "b" = k
      · simp [jlookup, ha, hb]
      · simp [jlookup, ha, hb]
  · decide

/-- C3 (amended). For a fixed query string, two option bags produce the
same cache key exactly when JSON.stringify serializes them identically; in
particular option bags with the same keys in the same insertion order and
equal values always produce equal keys, while reordering insertion can
change the key. -/
theorem cacheKey_det_serialization (q : String) (o1 o2 : List (String × JVal)) :
    generateCacheKey q o1 = generateCacheKey q o2 ↔ jsonStringify o1 = jsonStringify o2 := by
  unfold generateCacheKey
  constructor
  · intro h
    have hd := congrArg String.data h
    simp only [String.data_append] at hd
    have h1 := List.append_cancel_left hd
    exact String.ext h1
  · intro h
    rw [h]

/-- C3 witness: equal serializations at a concrete input give equal keys. -/
theorem cacheKey_det_serialization_witness :
    generateCacheKey "q" [("a", JVal.jbool true)] = generateCacheKey "q" [("a", JVal.jbool true)] :=
  (cacheKey_det_serialization "q" [("a", JVal.jbool true)] [("a", JVal.jbool true)]).mpr rfl

/- ### Cache round trip (C6) -/

theorem jlookup_mapSet_self {V : Type} (k : String) (v : V) :
    ∀ (m : List (String × V)), jlookup k (mapSet k v m) = some v := by
  intro m
  induction m with
  | nil => simp [mapSet, jlookup]
  | cons kv rest ih =>
    obtain ⟨k0, w⟩ := kv
    by_cases h : k0 = k
    · simp [mapSet, h, jlookup]
    · simp [mapSet, h, jlookup, ih]

theorem jlookup_none_of_not_mem {V : Type} {k : String} :
    ∀ (m : List (String × V)), k ∉ m.map Prod.fst → jlookup k m = none := by
  intro m
  induction m with
  | nil => intro _; rfl
  | cons kv rest ih =>
    obtain ⟨k0, w⟩ := kv
    intro h
    have h0 : k0 ≠ k := by
      intro e
      exact h (by simp [e])
    simp only [jlookup, if_neg h0]
    exact ih (fun hm => h (by rw [List.map_cons]; exact List.mem_cons_of_mem _ hm))

theorem mem_keys_mapSet {V : Type} {k x : String} {v : V} :
    ∀ (m : List (String × V)), x ∈ (mapSet k v m).map Prod.fst →
      x = k ∨ x ∈ m.map Prod.fst := by
  intro m
  induction m with
  | nil => intro h; simp [mapSet] at h; exact Or.inl h
  | cons kv rest ih =>
    obtain ⟨k0, w⟩ := kv
    intro h
    by_cases he : k0 = k
    · simp only [mapSet, if_pos he, List.map_cons] at h
      rcases List.mem_cons.mp h with h2 | h2
      · exact Or.inr (by rw [List.map_cons, h2]; exact List.mem_cons_self _ _)
      · exact Or.inr (by rw [List.map_cons]; exact List.mem_cons_of_mem _ h2)
    · simp only [mapSet, if_neg he, List.map_cons] at h
      rcases List.mem_cons.mp h with h2 | h2
      · exact Or.inr (by rw [List.map_cons, h2]; exact List.mem_cons_self _ _)
      · rcases ih h2 with h3 | h3
        · exact Or.inl h3
        · exact Or.inr (by rw [List.map_cons]; exact List.mem_cons_of_mem _ h3)

theorem mapSet_keys_nodup {V : Type} (k : String) (v : V) :
    ∀ (m : List (String × V)), (m.map Prod.fst).Nodup → ((mapSet k v m).map Prod.fst).Nodup := by
  intro m
  induction m with
  | nil => intro _; simp [mapSet]
  | cons kv rest ih =>
    obtain ⟨k0, w⟩ := kv
    intro hnd
    simp only [List.map_cons, List.nodup_cons] at hnd
    by_cases he : k0 = k
    · simp only [mapSet, if_pos he, List.map_cons, List.nodup_cons]
      exact hnd
    · simp only [mapSet, if_neg he, List.map_cons, List.nodup_cons]
      refine ⟨?_, ih hnd.2⟩
      intro hm
      rcases mem_keys_mapSet rest hm with h2 | h2
      · exact he h2
      · exact hnd.1 h2

theorem jlookup_mapDelete_self {V : Type} (k : String) :
    ∀ (m : List (String × V)), (m.map Prod.fst).Nodup → jlookup k (mapDelete k m) = none := by
  intro m
  induction m with
  | nil => intro _; rfl
  | cons kv rest ih =>
    obtain ⟨k0, w⟩ := kv
    intro hnd
    simp only [List.map_cons, List.nodup_cons] at hnd
    by_cases he : k0 = k
    · simp only [mapDelete, if_pos he]
      apply jlookup_none_of_not_mem
      rw [← he]
      exact hnd.1
    · simp only [mapDelete, if_neg he, jlookup, if_neg he]
      exact ih hnd.2

/-- C6. Cache round trip: after `set(k, v)` at time `t` (TTL `maxAge`), a
`get(k)` at time `now` returns `v` and leaves the cache unchanged exactly
while `now - t < maxAge`; once `now - t ≥ maxAge` the same read is a miss
that deletes the entry as a side effect — a subsequent lookup of `k` in
the cache the read leaves behind finds nothing. -/
theorem cache_roundtrip {V : Type} (cache : List (String × CacheEntry V))
    (t now maxAge : Nat) (k : String) (v : V)
    (hnd : (cache.map Prod.fst).Nodup) :
    ((now : Int) - (t : Int) < (maxAge : Int) →
      getFromCache (setCache cache t maxAge k v) now k =
        (some v, setCache cache t maxAge k v)) ∧
    ((maxAge : Int) ≤ (now : Int) - (t : Int) →
      getFromCache (setCache cache t maxAge k v) now k =
        (none, mapDelete k (setCache cache t maxAge k v)) ∧
      jlookup k (mapDelete k (setCache cache t maxAge k v)) = none) := by
  have hset : jlookup k (setCache cache t maxAge k v) =
      some (⟨v, t, maxAge⟩ : CacheEntry V) := jlookup_mapSet_self k _ cache
  constructor
  · intro hfresh
    unfold getFromCache
    rw [hset]
    show (if (now : Int) - (t : Int) < (maxAge : Int)
          then (some v, setCache cache t maxAge k v)
          else (none, mapDelete k (setCache cache t maxAge k v))) = _
    rw [if_pos hfresh]
  · intro hstale
    unfold getFromCache
    rw [hset]
    refine ⟨?_, jlookup_mapDelete_self k _ (mapSet_keys_nodup k _ cache hnd)⟩
    show (if (now : Int) - (t : Int) < (maxAge : Int)
          then (some v, setCache cache t maxAge k v)
          else (none, mapDelete k (setCache cache t maxAge k v))) = _
    rw [if_neg (by omega)]

/-- Witness for C6: a fresh read returns the stored value, a stale read
misses and deletes, at concrete times. -/
theorem cache_roundtrip_witness :
    (getFromCache (setCache ([] : List (String × CacheEntry Nat)) 10 5 "k" 7) 12 "k" =
      (some 7, setCache ([] : List (String × CacheEntry Nat)) 10 5 "k" 7)) ∧
    (getFromCache (setCache ([] : List (String × CacheEntry Nat)) 10 5 "k" 7) 15 "k" =
        (none, mapDelete "k" (setCache ([] : List (String × CacheEntry Nat)) 10 5 "k" 7)) ∧
      jlookup "k" (mapDelete "k" (setCache ([] : List (String × CacheEntry Nat)) 10 5 "k" 7)) =
        none) :=
  ⟨(cache_roundtrip [] 10 12 5 "k" 7 (by simp)).1 (by decide),
   (cache_roundtrip [] 10 15 5 "k" 7 (by simp)).2 (by decide)⟩

/- ### Retry policy of the executor (C2) -/

theorem execFrom_stop {T : Type} (att : Nat → AttemptOutcome T) (rd attempt remaining : Nat)
    (e : JsError) (hf : att attempt = .failure e) (hs : shouldRetry e = false) :
    execFrom att rd attempt remaining = ⟨.error e, attempt + 1, []⟩ := by
  cases remaining with
  | zero => simp [execFrom, hf]
  | succ r => simp [execFrom, hf, hs]

theorem execFrom_spec {T : Type} (att : Nat → AttemptOutcome T) (rd : Nat) :
    ∀ (remaining attempt : Nat),
      attempt + 1 ≤ (execFrom att rd attempt remaining).attemptsMade ∧
      (execFrom att rd attempt remaining).attemptsMade ≤ attempt + remaining + 1 ∧
      (execFrom att rd attempt remaining).waits =
        (List.range ((execFrom att rd attempt remaining).attemptsMade - 1 - attempt)).map
          (fun k => rd * 2 ^ (attempt + k)) ∧
      (∀ k, attempt ≤ k → k + 1 < (execFrom att rd attempt remaining).attemptsMade →
        ∃ e, att k = .failure e ∧ shouldRetry e = true) ∧
      (∀ e, (execFrom att rd attempt remaining).result = .error e →
        att ((execFrom att rd attempt remaining).attemptsMade - 1) = .failure e) := by
  intro remaining
  induction remaining with
  | zero =>
    intro attempt
    cases hA : att attempt with
    | success d =>
      simp only [execFrom, hA]
      refine ⟨by omega, by omega, ?_, ?_, ?_⟩
      · rw [show attempt + 1 - 1 - attempt = 0 from by omega]
        simp
      · intro k h1 h2
        omega
      · intro e he
        cases he
    | failure e =>
      simp only [execFrom, hA]
      refine ⟨by omega, by omega, ?_, ?_, ?_⟩
      · rw [show attempt + 1 - 1 - attempt = 0 from by omega]
        simp
      · intro k h1 h2
        omega
      · intro e2 he
        have he2 : e = e2 := Except.error.inj he
        rw [show attempt + 1 - 1 = attempt from by omega, hA, he2]
  | succ r ih =>
    intro attempt
    cases hA : att attempt with
    | success d =>
      simp only [execFrom, hA]
      refine ⟨by omega, by omega, ?_, ?_, ?_⟩
      · rw [show attempt + 1 - 1 - attempt = 0 from by omega]
        simp
      · intro k h1 h2
        omega
      · intro e he
        cases he
    | failure e =>
      by_cases hs : shouldRetry e = true
      · simp only [execFrom, hA, hs, if_true]
        obtain ⟨ih1, ih2, ih3, ih4, ih5⟩ := ih (attempt + 1)
        refine ⟨by omega, by omega, ?_, ?_, ?_⟩
        · rw [ih3]
          rw [show (execFrom att rd (attempt + 1) r).attemptsMade - 1 - attempt =
              ((execFrom att rd (attempt + 1) r).attemptsMade - 1 - (attempt + 1)) + 1
            from by omega]
          rw [List.range_succ_eq_map, List.map_cons, List.map_map]
          congr 1
          apply List.map_congr_left
          intro k _
          show rd * 2 ^ (attempt + 1 + k) = rd * 2 ^ (attempt + (k + 1))
          rw [show attempt + 1 + k = attempt + (k + 1) from by omega]
        · intro k hk1 hk2
          rcases Nat.eq_or_lt_of_le hk1 with rfl | hklt
          · exact ⟨e, hA, hs⟩
          · exact ih4 k (by omega) hk2
        · intro e2 he2
          exact ih5 e2 he2
      · have hs2 : shouldRetry e = false := by
          revert hs; cases shouldRetry e <;> simp
        simp only [execFrom, hA, hs2, Bool.false_eq_true, if_false]
        refine ⟨by omega, by omega, ?_, ?_, ?_⟩
        · rw [show attempt + 1 - 1 - attempt = 0 from by omega]
          simp
        · intro k h1 h2
          omega
        · intro e2 he
          have he2 : e = e2 := Except.error.inj he
          rw [show attempt + 1 - 1 = attempt from by omega, hA, he2]

/-- C2. The executor makes at most retryCount+1 physical attempts; every
attempt that was followed by another had failed retryably (no
distinguishable status — including the falsy status 0 — or a 5xx, 408 or
429, per shouldRetry); the wait before retry number k+1 is
retryDelayMs × 2^k and no wait follows the final attempt (one wait per
retry, exponents 0,1,...); on exhaustion the caller receives exactly one
APIError built from the last observed failure — the structured
`response.data.error` when present and non-empty, else the error's own
message when non-empty, else "Network error"; a non-retryable failure
(such as a 404, whose status defeats every shouldRetry test) on the first
attempt ends the call immediately: one attempt, no waits. -/
theorem executor_retry_policy {T : Type} (rc rd : Nat) (att : Nat → AttemptOutcome T) :
    (executeRequest rc rd att).attemptsMade ≤ rc + 1 ∧
    (executeRequest rc rd att).waits =
      (List.range ((executeRequest rc rd att).attemptsMade - 1)).map (fun k => rd * 2 ^ k) ∧
    (∀ k, k + 1 < (executeRequest rc rd att).attemptsMade →
      ∃ e, att k = .failure e ∧ shouldRetry e = true) ∧
    (∀ m, (executeRequest rc rd att).result = .error m →
      ∃ e, att ((executeRequest rc rd att).attemptsMade - 1) = .failure e ∧
        m = finalErrorMessage e) ∧
    (∀ e, att 0 = .failure e → shouldRetry e = false →
      executeRequest rc rd att = ⟨.error (finalErrorMessage e), 1, []⟩) ∧
    (∀ e, e.isAxiosError = true → e.status = some 404 → shouldRetry e = false) ∧
    (∀ e s, e.isAxiosError = true → e.responseDataError = some s → s ≠ "" →
      finalErrorMessage e = s) ∧
    (∀ e, e.isAxiosError = true → e.responseDataError = none → e.message ≠ "" →
      finalErrorMessage e = e.message) ∧
    (∀ e, e.isAxiosError = true → e.responseDataError = none → e.message = "" →
      finalErrorMessage e = "Network error") := by
  obtain ⟨h1, h2, h3, h4, h5⟩ := execFrom_spec att rd rc 0
  refine ⟨?_, ?_, ?_, ?_, ?_, ?_, ?_, ?_, ?_⟩
  · show (execFrom att rd 0 rc).attemptsMade ≤ rc + 1
    omega
  · show (execFrom att rd 0 rc).waits = _
    rw [h3]
    rw [show (execFrom att rd 0 rc).attemptsMade - 1 - 0 =
        (execFrom att rd 0 rc).attemptsMade - 1 from by omega]
    apply List.map_congr_left
    intro k _
    rw [Nat.zero_add]
  · intro k hk
    exact h4 k (Nat.zero_le k) hk
  · intro m hm
    show ∃ e, att ((execFrom att rd 0 rc).attemptsMade - 1) = .failure e ∧ m = finalErrorMessage e
    have hr : (executeRequest rc rd att).result =
        ((execFrom att rd 0 rc).result).mapError finalErrorMessage := rfl
    rw [hr] at hm
    cases hres : (execFrom att rd 0 rc).result with
    | ok d => rw [hres] at hm; cases hm
    | error e0 =>
      rw [hres] at hm
      have hme : m = finalErrorMessage e0 := (Except.error.inj hm).symm
      exact ⟨e0, h5 e0 hres, hme⟩
  · intro e hf hs
    show (⟨((execFrom att rd 0 rc).result).mapError finalErrorMessage,
      (execFrom att rd 0 rc).attemptsMade, (execFrom att rd 0 rc).waits⟩ : ExecResult T) =
      ⟨.error (finalErrorMessage e), 1, []⟩
    rw [execFrom_stop att rd 0 rc e hf hs]
    rfl
  · intro e hax h404
    unfold shouldRetry
    rw [if_pos hax, h404]
    decide
  · intro e s hax hd hne
    unfold finalErrorMessage
    rw [if_pos hax, hd]
    simp [hne]
  · intro e hax hd hne
    unfold finalErrorMessage
    rw [if_pos hax, hd]
    simp [hne]
  · intro e hax hd hemp
    unfold finalErrorMessage
    rw [if_pos hax, hd]
    simp [hemp]

/-- Witness for C2: a first-attempt 404 ends the logical call after
exactly one attempt, with no backoff waits, surfacing one APIError. -/
theorem executor_retry_policy_witness :
    executeRequest 3 1000 (fun _ => AttemptOutcome.failure
        (⟨true, some 404, none, "Request failed with status code 404"⟩ : JsError)) =
      ⟨(.error "Request failed with status code 404" : Except String Nat), 1, []⟩ :=
  (executor_retry_policy 3 1000 _).2.2.2.2.1
    ⟨true, some 404, none, "Request failed with status code 404"⟩ rfl (by decide)

/- ### Facade error paths (C7) -/

/-- C7. The facade query returns an APIError immediately — with zero
executor delegations and the cache untouched — whenever classification
yields an invalid result; and whenever the executor's call does happen
(cache miss or caching off) and succeeds with a body carrying no error
field but an empty data set, the facade returns the
`No verses found with "<query>"` APIError instead of a success envelope. -/
theorem facade_query_errors {D : Type} [DecidableEq D] (idx : List VerseIndex)
    (cfg : APIConfig) (cache : List (String × CacheEntry (APIResponseRec D))) (now : Nat)
    (rid : String) (q : String) (opts : List (String × JVal)) (skip : Bool)
    (net : Except String (NetBody D)) :
    (∀ e, parseQuery idx q opts = .ok (.invalid e) →
      facadeQuery idx cfg cache now rid q opts skip net =
        ⟨.apiError e, 0, cache⟩) ∧
    (∀ pq body, parseQuery idx q opts = .ok (.valid pq) →
      (if cfg.enableCaching && ! skip then getFromCache cache now (generateCacheKey q opts)
        else (none, cache)).1 = none →
      net = .ok body → bodyError body = none → bodyData body = [] →
      facadeQuery idx cfg cache now rid q opts skip net =
        ⟨.apiError ("No verses found with \"" ++ q ++ "\""), 1,
          (if cfg.enableCaching && ! skip then getFromCache cache now (generateCacheKey q opts)
            else (none, cache)).2⟩) := by
  constructor
  · intro e hinv
    unfold facadeQuery
    rw [hinv]
  · intro pq body hval hmiss hnet herr hdata
    unfold facadeQuery
    rw [hval]
    rcases hcs : (if cfg.enableCaching && ! skip then
        getFromCache cache now (generateCacheKey q opts)
      else (none, cache)) with ⟨o, c2⟩
    rw [hcs] at hmiss
    have ho : o = none := hmiss
    subst ho
    rw [hnet]
    have hErrField : (match bodyError body with
        | some e => decide (e ≠ "")
        | none => false) = false := by
      rw [herr]
    simp only [hErrField, Bool.false_eq_true, if_false, hdata, List.length_nil, if_pos rfl]
    rw [if_pos trivial]

/-- Witness for C7: the empty query classifies as invalid, so the facade
answers with an APIError and performs no network call. -/
theorem facade_query_errors_witness :
    facadeQuery (D := Nat) VerseIndices (resolveConfig {}) [] 0 "rid" "" [] false
        (.ok (NetBody.arrayBody [])) =
      ⟨.apiError "Invalid query", 0, []⟩ :=
  (facade_query_errors VerseIndices (resolveConfig {}) [] 0 "rid" "" [] false
    (.ok (NetBody.arrayBody []))).1 "Invalid query" (by rfl)

end WS
